import Mathlib

/-!
# The slow-operation alarm registry and its watchdog loop

A shallow embedding of `tensorflow/compiler/xla/service/slow_operation_alarm.cc`.

* `absl::Time` and `absl::Duration` are integers (ticks of one common unit).
* An alarm object is identified by a natural number standing for its `this`
  pointer; one number per constructed object.
* A `std::atomic<int64_t>` counter is identified by a natural number and holds
  an `Int` in the signed 64-bit range; `fetch_add` wraps modulo `2^64`.
* `LOG(ERROR)` and the counter reads are kept as a list of `Firing` records,
  one per alarm the scan erased because its deadline had passed.
-/

namespace xla

/-! ## Signed 64-bit arithmetic -/

/-- The signed 64-bit value congruent to `x` modulo `2^64`. -/
def wrap64 (x : Int) : Int := (x + 2 ^ 63) % 2 ^ 64 - 2 ^ 63

/-- The 64-bit two's-complement bit pattern of `x`, as a natural number. -/
def toBits64 (x : Int) : Nat := (x % 2 ^ 64).toNat

/-- The operator `&` of `int64_t`: bitwise and of the two bit patterns. -/
def and64 (a b : Int) : Int := wrap64 (Int.ofNat (toBits64 a &&& toBits64 b))

/-- The throttle test of `AlarmLoop`:
`count == 0 || (count & (count - 1)) == 0`, with `count - 1` wrapping. -/
def reportTest (count : Int) : Bool :=
  count == 0 || and64 count (wrap64 (count - 1)) == 0

/-- The value `count` is an exact power of two. -/
def IsPow2 (count : Int) : Prop := ∃ k : Nat, count = 2 ^ k

/-! ## Data model -/

/-- The fields of a `SlowOperationAlarm` object. -/
structure SlowOperationAlarm where
  deadline_ : Int
  msg_fn_ : Unit → String
  fired_ : Bool
  counter_ : Option Nat

/-- The accessor `msg()`: evaluates the message producer. -/
def SlowOperationAlarm.msg (a : SlowOperationAlarm) : String := a.msg_fn_ ()

/-- The process-wide state: the alarm objects, the atomic counters, the list
`outstanding_alarms` and the number of `ready->Signal()` calls made so far. -/
structure Registry where
  alarms : Nat → SlowOperationAlarm
  counters : Nat → Int
  outstanding_alarms : List Nat
  signals : Nat

/-- What the scan did with one expired alarm: the alarm it erased, the counter
the alarm is bound to, the value `count` it captured, and the text handed to
`LOG(ERROR)` when the throttle let the alarm through. -/
structure Firing where
  alarm : Nat
  counter : Option Nat
  count : Int
  logged : Option String
  deriving DecidableEq

/-- The firing reached the Reporter. -/
def Firing.reported (f : Firing) : Bool := f.logged.isSome

/-! ## `AlarmLoop`: the scanning pass -/

/-- The value of
`alarm->counter() == nullptr ? 0 : alarm->counter()->fetch_add(1)`. -/
def capturedCount (w : Registry) (alarm : Nat) : Int :=
  match (w.alarms alarm).counter_ with
  | none => 0
  | some c => w.counters c

/-- The counters after that expression: `fetch_add(1)` on the alarm's counter,
wrapping, or nothing when the alarm has no counter. -/
def countersAfterFetch (w : Registry) (alarm : Nat) : Nat → Int :=
  match (w.alarms alarm).counter_ with
  | none => w.counters
  | some c => Function.update w.counters c (wrap64 (w.counters c + 1))

/-- The body of `if (alarm->deadline() <= now)` after the erase: read and bump
the counter, then store `fired_` and log when the throttle test passes. -/
def fireAlarm (w : Registry) (alarm : Nat) : Registry × Firing :=
  let count := capturedCount w alarm
  let w1 : Registry := { w with counters := countersAfterFetch w alarm }
  if reportTest count then
    ({ w1 with alarms := Function.update w1.alarms alarm
                 { w1.alarms alarm with fired_ := true } },
     ⟨alarm, (w.alarms alarm).counter_, count, some (w.alarms alarm).msg⟩)
  else
    (w1, ⟨alarm, (w.alarms alarm).counter_, count, none⟩)

/-- The `for` loop of `AlarmLoop` from iterator position `it` on: the argument
list is the part of `outstanding_alarms` from `it` to the end.  Returns the
entries that were not erased, the state, and the firings in order. -/
def scanFrom (now : Int) : List Nat → Registry → List Nat × Registry × List Firing
  | [], w => ([], w, [])
  | alarm :: next, w =>
    if (w.alarms alarm).deadline_ ≤ now then
      let r := scanFrom now next (fireAlarm w alarm).1
      (r.1, r.2.1, (fireAlarm w alarm).2 :: r.2.2)
    else
      let r := scanFrom now next w
      (alarm :: r.1, r.2.1, r.2.2)

/-- One Scanning pass of `AlarmLoop` at time `now`. -/
def AlarmLoop_scan (now : Int) (w : Registry) : Registry × List Firing :=
  let r := scanFrom now w.outstanding_alarms w
  ({ r.2.1 with outstanding_alarms := r.1 }, r.2.2)

/-! ## `AlarmLoop`: the waiting state -/

/-- The algorithm `std::min_element` behind `absl::c_min_element`, on a
non-empty range starting with `first`: keeps the first smallest element. -/
def c_min_element (comp : Nat → Nat → Bool) (first : Nat) (rest : List Nat) : Nat :=
  rest.foldl (fun smallest x => if comp x smallest then x else smallest) first

/-- How the loop blocks after a scan. -/
inductive WaitCall where
  | Wait : WaitCall
  | WaitWithDeadline : Int → WaitCall
  deriving DecidableEq

/-- The tail of the loop body: `Wait` when `outstanding_alarms` is empty,
otherwise `WaitWithDeadline` on the deadline of the minimum element. -/
def AlarmLoop_wait (w : Registry) : WaitCall :=
  match w.outstanding_alarms with
  | [] => WaitCall.Wait
  | first :: rest =>
    let next_alarm := c_min_element
      (fun a b => decide ((w.alarms a).deadline_ < (w.alarms b).deadline_)) first rest
    WaitCall.WaitWithDeadline (w.alarms next_alarm).deadline_

/-! ## Registration -/

/-- `ScheduleAlarm`: `push_back` and `ready->Signal()`. -/
def ScheduleAlarm (alarm : Nat) (w : Registry) : Registry :=
  { w with outstanding_alarms := w.outstanding_alarms ++ [alarm],
           signals := w.signals + 1 }

/-- `UnscheduleAlarm`: erase the first entry equal to `alarm`, if any. -/
def UnscheduleAlarm (alarm : Nat) (w : Registry) : Registry :=
  { w with outstanding_alarms := w.outstanding_alarms.erase alarm }

/-- The constructor at object `this`, run at time `now`. -/
def construct (this : Nat) (now timeout : Int) (msg_fn : Unit → String)
    (counter : Option Nat) (w : Registry) : Registry :=
  ScheduleAlarm this
    { w with alarms := Function.update w.alarms this
               { deadline_ := now + timeout, msg_fn_ := msg_fn,
                 fired_ := false, counter_ := counter } }

/-- The destructor of object `this`. -/
def destroy (this : Nat) (w : Registry) : Registry := UnscheduleAlarm this w

/-! ## Runs of the process -/

/-- One atomic step of the process: a constructor call, a destructor call, or
one Scanning pass of the watchdog loop (each runs under the mutex `mu`). -/
inductive Op where
  | construct (this : Nat) (now timeout : Int) (msg_fn : Unit → String)
      (counter : Option Nat) : Op
  | destroy (this : Nat) : Op
  | scan (now : Int) : Op

/-- The registry together with the history of the run: every firing so far,
and the objects constructed and destroyed so far. -/
structure Sys where
  reg : Registry
  firings : List Firing
  constructed : List Nat
  destroyed : List Nat

/-- The state before the first alarm is constructed; `counters` gives the
initial values of the caller-supplied counters. -/
def Sys.init (counters : Nat → Int) : Sys :=
  { reg := { alarms := fun _ => ⟨0, fun _ => "", false, none⟩,
             counters := counters, outstanding_alarms := [], signals := 0 },
    firings := [], constructed := [], destroyed := [] }

/-- The effect of one operation. -/
def Sys.step (s : Sys) : Op → Sys
  | Op.construct this now timeout msg_fn counter =>
    { s with reg := construct this now timeout msg_fn counter s.reg,
             constructed := s.constructed ++ [this] }
  | Op.destroy this =>
    { s with reg := destroy this s.reg, destroyed := s.destroyed ++ [this] }
  | Op.scan now =>
    { s with reg := (AlarmLoop_scan now s.reg).1,
             firings := s.firings ++ (AlarmLoop_scan now s.reg).2 }

/-- An operation the language allows: a constructor runs on a new object, a
destructor runs once, on an object that was constructed. -/
def Op.allowed (s : Sys) : Op → Bool
  | Op.construct this _ _ _ _ => decide (this ∉ s.constructed)
  | Op.destroy this => decide (this ∈ s.constructed ∧ this ∉ s.destroyed)
  | Op.scan _ => true

/-- The state after a sequence of operations. -/
def Sys.run (s : Sys) : List Op → Sys
  | [] => s
  | op :: ops => (s.step op).run ops

/-- Every operation of the sequence is allowed when its turn comes. -/
def Sys.allows (s : Sys) : List Op → Bool
  | [] => true
  | op :: ops => op.allowed s && (s.step op).allows ops

/-- The number of Reporter invocations among the firings. -/
def reportCount (fs : List Firing) : Nat := (fs.filter Firing.reported).length

/-- The firings of alarms bound to counter `c`. -/
def firingsOn (c : Nat) (fs : List Firing) : List Firing :=
  fs.filter (fun f => decide (f.counter = some c))

/-- The firings of alarm `a`. -/
def firingsOf (a : Nat) (fs : List Firing) : List Firing :=
  fs.filter (fun f => decide (f.alarm = a))

/-! ## `SlowCompilationAlarm` -/

/-- The durations `absl::Seconds(n)` and `absl::Minutes(n)`, in nanoseconds. -/
def Seconds (n : Int) : Int := n * 1000000000

/-- See `Seconds`. -/
def Minutes (n : Int) : Int := Seconds (n * 60)

/-- The function `absl::StrCat`: the pieces joined in order. -/
def StrCat (pieces : List String) : String := String.join pieces

/-- The function-local `static auto* counter` of `SlowCompilationAlarm`: one
counter for the whole process, created holding 0. -/
def SlowCompilationAlarm_counter : Nat := 0

/-- The factory `SlowCompilationAlarm(msg)`, building its alarm at object
`this` at time `now`; `NDEBUG` tells which branch of `#if NDEBUG` was
compiled. -/
def SlowCompilationAlarm (NDEBUG : Bool) (msg : String) (this : Nat) (now : Int)
    (w : Registry) : Registry :=
  let separator := "\n********************************"
  let msg_suffix := if !msg.isEmpty then StrCat ["\n", msg] else ""
  if NDEBUG then
    construct this now (Minutes 2)
      (fun _ => StrCat
        [separator,
         "\nVery slow compile?  If you want to file a bug, run with envvar XLA_FLAGS=--xla_dump_to=/tmp/foo and attach the results.",
         msg_suffix, separator])
      (some SlowCompilationAlarm_counter) w
  else
    construct this now (Seconds 10)
      (fun _ => StrCat
        [separator,
         "\nSlow compile?  XLA was built without compiler optimizations, which can be slow.  Try rebuilding with -c opt.",
         msg_suffix, separator])
      (some SlowCompilationAlarm_counter) w

/-- The fixed warning text of a build mode, as it stands in the factory. -/
def warningBody (NDEBUG : Bool) : String :=
  if NDEBUG then
    "\nVery slow compile?  If you want to file a bug, run with envvar XLA_FLAGS=--xla_dump_to=/tmp/foo and attach the results."
  else
    "\nSlow compile?  XLA was built without compiler optimizations, which can be slow.  Try rebuilding with -c opt."

/-! ## Sample states -/

/-- One expired alarm bound to a counter that holds the least 64-bit value. -/
def minCountRegistry : Registry :=
  { alarms := fun _ => ⟨0, fun _ => "slow", false, some 0⟩,
    counters := fun _ => -2 ^ 63,
    outstanding_alarms := [0],
    signals := 0 }

/-- Three live alarms: alarm 0 (deadline 5) and alarm 2 (deadline 20) share
counter 0, which holds 3; alarm 1 (deadline 10) has no counter. -/
def sampleRegistry : Registry :=
  { alarms := fun a =>
      if a = 0 then ⟨5, fun _ => "zero", false, some 0⟩
      else if a = 1 then ⟨10, fun _ => "one", false, none⟩
      else ⟨20, fun _ => "two", false, some 0⟩,
    counters := fun _ => 3,
    outstanding_alarms := [0, 1, 2],
    signals := 3 }

/-- The facts that hold of every state a run of allowed operations reaches. -/
structure Sys.Inv (s : Sys) : Prop where
  nodup : s.reg.outstanding_alarms.Nodup
  live_constructed : ∀ a ∈ s.reg.outstanding_alarms, a ∈ s.constructed
  live_not_destroyed : ∀ a ∈ s.reg.outstanding_alarms, a ∉ s.destroyed
  live_not_fired : ∀ a ∈ s.reg.outstanding_alarms, a ∉ s.firings.map Firing.alarm
  firings_nodup : (s.firings.map Firing.alarm).Nodup
  firings_constructed : ∀ a ∈ s.firings.map Firing.alarm, a ∈ s.constructed
  fired_has_firing : ∀ a, (s.reg.alarms a).fired_ = true →
    ∃ f ∈ s.firings, f.alarm = a ∧ f.reported = true
  destroyed_constructed : ∀ a ∈ s.destroyed, a ∈ s.constructed


/-- Three live alarms without a counter, with deadlines 10, 20 and 5 and
distinct messages. -/
def noCounterRegistry : Registry :=
  { alarms := fun a =>
      if a = 0 then ⟨10, fun _ => "first", false, none⟩
      else if a = 1 then ⟨20, fun _ => "second", false, none⟩
      else ⟨5, fun _ => "third", false, none⟩,
    counters := fun _ => 0,
    outstanding_alarms := [0, 1, 2],
    signals := 3 }

/-! ## Live-set accounting -/

/-- The constructed alarms that have left the live collection for good: those
destroyed and those a scan erased on expiry (reported or suppressed). -/
def Sys.gone (s : Sys) : List Nat :=
  s.constructed.filter (fun a =>
    decide (a ∈ s.destroyed) || decide (a ∈ s.firings.map Firing.alarm))

/-- The constructed alarms that are destroyed or have `fired() == true`. -/
def Sys.destroyedOrFired (s : Sys) : List Nat :=
  s.constructed.filter (fun a => decide (a ∈ s.destroyed) || (s.reg.alarms a).fired_)

/-- Further facts of every reachable state: no object is constructed twice, a
constructed alarm that was neither destroyed nor erased by a scan is live, and
an alarm with a reported firing has `fired_` set. -/
structure Sys.Accounted (s : Sys) : Prop where
  constructed_nodup : s.constructed.Nodup
  rest_live : ∀ a ∈ s.constructed, a ∉ s.destroyed → a ∉ s.firings.map Firing.alarm →
    a ∈ s.reg.outstanding_alarms
  reported_fired : ∀ f ∈ s.firings, f.reported = true → (s.reg.alarms f.alarm).fired_ = true

/-! ## Sample runs -/

/-- Three alarms bound to counter 0 are constructed and all expire in one scan. -/
def threeAlarms : List Op :=
  [Op.construct 0 0 10 (fun _ => "a") (some 0),
   Op.construct 1 0 10 (fun _ => "b") (some 0),
   Op.construct 2 0 10 (fun _ => "c") (some 0),
   Op.scan 10]

/-- Four alarms bound to counter 0 expire over two scans. -/
def fourAlarms : List Op :=
  [Op.construct 0 0 10 (fun _ => "a") (some 0),
   Op.construct 1 0 10 (fun _ => "b") (some 0),
   Op.scan 10,
   Op.construct 2 10 10 (fun _ => "c") (some 0),
   Op.construct 3 10 10 (fun _ => "d") (some 0),
   Op.scan 20]

/-- An alarm with a timeout of 500 is destroyed at time 10, between two scans. -/
def cancelledAlarm : List Op :=
  [Op.construct 0 0 500 (fun _ => "slow") none,
   Op.scan 5,
   Op.destroy 0,
   Op.scan 600]

end xla

/-!
# Materializing the broadcasts of `ClampOp`

A shallow embedding of
`tensorflow/compiler/mlir/hlo/lib/Dialect/mhlo/transforms/materialize_broadcasts.cc`.
A tensor type is its shape and an element type; a value is known by where it
comes from and by its type.
-/

namespace mlir.mhlo

/-- The extent `ShapedType::kDynamicSize` that marks a dynamic dimension. -/
def kDynamicSize : Int := -1

/-- A `RankedTensorType`: the extents of its dimensions and its element type. -/
structure RankedTensorType where
  shape : List Int
  elementType : Nat
  deriving DecidableEq

/-- The member `getRank()`. -/
def RankedTensorType.getRank (t : RankedTensorType) : Nat := t.shape.length

/-- The member `hasStaticShape()`: no dimension is dynamic. -/
def RankedTensorType.hasStaticShape (t : RankedTensorType) : Bool :=
  t.shape.all (fun d => d != kDynamicSize)

/-- The type of a tensor value: ranked or unranked. -/
inductive TensorType where
  | ranked : RankedTensorType → TensorType
  | unranked : Nat → TensorType
  deriving DecidableEq

/-- The cast `dyn_cast<RankedTensorType>()`: null on an unranked type. -/
def TensorType.dyn_cast (t : TensorType) : Option RankedTensorType :=
  match t with
  | TensorType.ranked r => some r
  | TensorType.unranked _ => none

/-- A value of the IR: one defined outside the pattern, or the result of a
`BroadcastOp` made by `createOrFold<BroadcastOp>(loc, resultType, operand,
broadcast_sizes)` (a fold keeps the type of the result, and is not told apart
here). -/
inductive Value where
  | defined : Nat → TensorType → Value
  | BroadcastOp : TensorType → Value → List Int → Value
  deriving DecidableEq

/-- The member `getType()` of a value. -/
def Value.getType : Value → TensorType
  | Value.defined _ t => t
  | Value.BroadcastOp resultType _ _ => resultType

/-- A `ClampOp`: its result type and its operands `min`, `operand`, `max`. -/
structure ClampOp where
  resultType : TensorType
  min : Value
  operand : Value
  max : Value
  deriving DecidableEq

/-- What a call of `matchAndRewrite` does: return `failure()` with the IR
untouched, replace the op and return `success()`, or stop at an `assert`. -/
inductive RewriteOutcome where
  | failure : RewriteOutcome
  | success : ClampOp → RewriteOutcome
  | assertFailed : RewriteOutcome
  deriving DecidableEq

/-- The statement `assert(type.getRank() == 0)`: checked unless the build
defines `NDEBUG`. -/
def assertRankZero (NDEBUG : Bool) (type : RankedTensorType) : Bool :=
  NDEBUG || type.getRank == 0

/-- The method `ClampWithBroadcastConvert::matchAndRewrite`. -/
def matchAndRewrite (NDEBUG : Bool) (op : ClampOp) : RewriteOutcome :=
  match op.operand.getType.dyn_cast, op.max.getType.dyn_cast, op.min.getType.dyn_cast with
  | some operandType, some maxType, some minType =>
    if !operandType.hasStaticShape then RewriteOutcome.failure
    else
      let operandShape := operandType.shape
      if maxType ≠ operandType ∧ assertRankZero NDEBUG maxType = false then
        RewriteOutcome.assertFailed
      else
        let maxValue :=
          if maxType ≠ operandType then
            Value.BroadcastOp (TensorType.ranked operandType) op.max operandShape
          else op.max
        if minType ≠ operandType ∧ assertRankZero NDEBUG minType = false then
          RewriteOutcome.assertFailed
        else
          let minValue :=
            if minType ≠ operandType then
              Value.BroadcastOp (TensorType.ranked operandType) op.min operandShape
            else op.min
          RewriteOutcome.success ⟨op.resultType, minValue, op.operand, maxValue⟩
  | _, _, _ => RewriteOutcome.failure

/-- The predicate `SetupMaterializeBroadcastsLegality` installs for `ClampOp`. -/
def isLegalClampOp (op : ClampOp) : Bool :=
  op.max.getType == op.operand.getType && op.min.getType == op.operand.getType

/-- A clamp of a `4 x 2` tensor between a scalar `min` and a `max` of the
operand's type. -/
def sampleClamp : ClampOp :=
  { resultType := TensorType.ranked ⟨[4, 2], 0⟩,
    min := Value.defined 0 (TensorType.ranked ⟨[], 0⟩),
    operand := Value.defined 1 (TensorType.ranked ⟨[4, 2], 0⟩),
    max := Value.defined 2 (TensorType.ranked ⟨[4, 2], 0⟩) }

/-- A clamp whose `min` is neither of the operand's type nor a scalar: `min`
has shape `2`, the operand shape `4`. -/
def mismatchedClamp : ClampOp :=
  { resultType := TensorType.ranked ⟨[4], 0⟩,
    min := Value.defined 0 (TensorType.ranked ⟨[2], 0⟩),
    operand := Value.defined 1 (TensorType.ranked ⟨[4], 0⟩),
    max := Value.defined 2 (TensorType.ranked ⟨[4], 0⟩) }

end mlir.mhlo

namespace xla

/-! # Theorems -/

/-! ## The throttle test -/

theorem land_pred_eq_zero_iff (n : Nat) (hn : 0 < n) :
    n &&& (n - 1) = 0 ↔ ∃ k, n = 2 ^ k := by
  induction n using Nat.strong_induction_on with
  | _ n ih =>
    rcases Nat.even_or_odd' n with ⟨m, rfl | rfl⟩
    · have hm : 0 < m := by omega
      have h1 : 2 * m - 1 = Nat.bit true (m - 1) := by
        simp [Nat.bit_true]; omega
      have h0 : 2 * m = Nat.bit false m := by simp [Nat.bit_false]
      rw [h1]
      nth_rewrite 1 [h0]
      rw [Nat.land_bit]
      simp only [Bool.false_and, Nat.bit_false]
      constructor
      · intro h
        have h2 : m &&& (m - 1) = 0 := by omega
        obtain ⟨k, hk⟩ := (ih m (by omega) hm).1 h2
        exact ⟨k + 1, by rw [hk, pow_succ]; ring⟩
      · rintro ⟨k, hk⟩
        cases k with
        | zero => omega
        | succ k =>
          have : m = 2 ^ k := by rw [pow_succ] at hk; omega
          have h2 := (ih m (by omega) hm).2 ⟨k, this⟩
          simp [h2]
    · have h1 : 2 * m + 1 - 1 = Nat.bit false m := by simp [Nat.bit_false]
      have h0 : 2 * m + 1 = Nat.bit true m := by simp [Nat.bit_true]
      rw [h1]
      nth_rewrite 1 [h0]
      rw [Nat.land_bit]
      simp only [Bool.and_false, Nat.bit_false, Nat.and_self]
      constructor
      · intro h
        exact ⟨0, by omega⟩
      · rintro ⟨k, hk⟩
        cases k with
        | zero => omega
        | succ k => rw [pow_succ] at hk; omega

theorem toBits64_lt (x : Int) : toBits64 x < 2 ^ 64 := by
  unfold toBits64; omega

theorem toBits64_pred (count : Int) (h0 : count ≠ 0)
    (hlo : -2 ^ 63 ≤ count) (hhi : count < 2 ^ 63) :
    toBits64 (wrap64 (count - 1)) = toBits64 count - 1 := by
  unfold toBits64 wrap64; omega

theorem toBits64_pos (count : Int) (h0 : count ≠ 0)
    (hlo : -2 ^ 63 ≤ count) (hhi : count < 2 ^ 63) : 0 < toBits64 count := by
  unfold toBits64; omega

theorem wrap64_ofNat_eq_zero (n : Nat) (h : n < 2 ^ 64) :
    wrap64 (Int.ofNat n) = 0 ↔ n = 0 := by
  unfold wrap64; simp only [Int.ofNat_eq_coe]; omega

/-- The throttle test passes exactly on the bit patterns with at most one set
bit. -/
theorem reportTest_iff_bits (count : Int) (hlo : -2 ^ 63 ≤ count) (hhi : count < 2 ^ 63) :
    reportTest count = true ↔ toBits64 count = 0 ∨ ∃ k, toBits64 count = 2 ^ k := by
  by_cases h0 : count = 0
  · subst h0; simp [reportTest, toBits64]
  · have hpos := toBits64_pos count h0 hlo hhi
    have hlt := toBits64_lt count
    have hle : toBits64 count &&& (toBits64 count - 1) < 2 ^ 64 :=
      lt_of_le_of_lt Nat.and_le_left hlt
    simp only [reportTest, and64, toBits64_pred count h0 hlo hhi, Bool.or_eq_true, beq_iff_eq,
      h0, false_or, wrap64_ofNat_eq_zero _ hle, land_pred_eq_zero_iff _ hpos]
    constructor
    · intro h; exact Or.inr h
    · rintro (h | h)
      · omega
      · exact h

theorem two_pow_bits (count : Int) (hlo : -2 ^ 63 ≤ count) (hhi : count < 2 ^ 63) :
    (∃ k, toBits64 count = 2 ^ k) ↔ IsPow2 count ∨ count = -2 ^ 63 := by
  have hlt := toBits64_lt count
  constructor
  · rintro ⟨k, hk⟩
    have hk64 : k < 64 := by
      by_contra hge
      have : (2:Nat) ^ 64 ≤ 2 ^ k := Nat.pow_le_pow_right (by norm_num) (by omega)
      omega
    by_cases hneg : 0 ≤ count
    · left
      refine ⟨k, ?_⟩
      have : ((toBits64 count : Nat) : Int) = count := by unfold toBits64; omega
      rw [← this, hk]; push_cast; rfl
    · right
      have hk63 : k = 63 := by
        by_contra hne
        have : (2:Nat) ^ k ≤ 2 ^ 62 := Nat.pow_le_pow_right (by norm_num) (by omega)
        have h2 : (2:Nat)^63 ≤ toBits64 count := by unfold toBits64; omega
        omega
      subst hk63
      unfold toBits64 at hk; omega
  · rintro (⟨k, hk⟩ | h)
    · refine ⟨k, ?_⟩
      have hpos : (0:Int) < 2 ^ k := by positivity
      have : ((toBits64 count : Nat) : Int) = count := by unfold toBits64; omega
      have h3 : ((toBits64 count : Nat) : Int) = ((2 ^ k : Nat) : Int) := by
        rw [this, hk]; push_cast; rfl
      exact_mod_cast h3
    · exact ⟨63, by subst h; unfold toBits64; decide⟩

/-- On signed 64-bit values the throttle test passes on zero, on the powers of
two, and on the least value `-2^63`, and on nothing else. -/
theorem reportTest_iff (count : Int) (hlo : -2 ^ 63 ≤ count) (hhi : count < 2 ^ 63) :
    reportTest count = true ↔ count = 0 ∨ IsPow2 count ∨ count = -2 ^ 63 := by
  rw [reportTest_iff_bits count hlo hhi, two_pow_bits count hlo hhi]
  have : toBits64 count = 0 ↔ count = 0 := by unfold toBits64; omega
  rw [this]

theorem not_isPow2_of_neg (count : Int) (h : count < 0) : ¬ IsPow2 count := by
  rintro ⟨k, hk⟩
  have hpos : (0:Int) < 2 ^ k := by positivity
  omega

/-! ## One alarm -/

theorem fireAlarm_firing (w : Registry) (x : Nat) :
    (fireAlarm w x).2 = ⟨x, (w.alarms x).counter_, capturedCount w x,
      if reportTest (capturedCount w x) then some (w.alarms x).msg else none⟩ := by
  unfold fireAlarm
  by_cases h : reportTest (capturedCount w x) = true <;> simp [h]

theorem fireAlarm_reported (w : Registry) (x : Nat) :
    (fireAlarm w x).2.reported = reportTest (capturedCount w x) := by
  rw [fireAlarm_firing]
  by_cases h : reportTest (capturedCount w x) = true <;> simp [h, Firing.reported]

theorem fireAlarm_counters (w : Registry) (x : Nat) :
    (fireAlarm w x).1.counters = countersAfterFetch w x := by
  unfold fireAlarm
  by_cases h : reportTest (capturedCount w x) = true <;> simp [h]

theorem fireAlarm_outstanding (w : Registry) (x : Nat) :
    (fireAlarm w x).1.outstanding_alarms = w.outstanding_alarms := by
  unfold fireAlarm
  by_cases h : reportTest (capturedCount w x) = true <;> simp [h]

theorem fireAlarm_alarm (w : Registry) (x a : Nat) :
    (fireAlarm w x).1.alarms a =
      { w.alarms a with
        fired_ := (w.alarms a).fired_ || (decide (a = x) && reportTest (capturedCount w x)) } := by
  unfold fireAlarm
  by_cases h : reportTest (capturedCount w x) = true
  · by_cases hax : a = x
    · subst hax; simp [h]
    · simp [h, hax, Function.update_noteq hax]
  · simp [h]

theorem fireAlarm_deadline (w : Registry) (x a : Nat) :
    ((fireAlarm w x).1.alarms a).deadline_ = (w.alarms a).deadline_ := by
  rw [fireAlarm_alarm]

theorem fireAlarm_counter (w : Registry) (x a : Nat) :
    ((fireAlarm w x).1.alarms a).counter_ = (w.alarms a).counter_ := by
  rw [fireAlarm_alarm]

theorem fireAlarm_msg (w : Registry) (x a : Nat) :
    ((fireAlarm w x).1.alarms a).msg = (w.alarms a).msg := by
  rw [fireAlarm_alarm]; rfl

theorem fireAlarm_fired (w : Registry) (x a : Nat) :
    ((fireAlarm w x).1.alarms a).fired_ =
      ((w.alarms a).fired_ || (decide (a = x) && reportTest (capturedCount w x))) := by
  rw [fireAlarm_alarm]

/-! ## The scanning pass -/

theorem scanFrom_alarm (now : Int) (l : List Nat) (w : Registry) (a : Nat) :
    (scanFrom now l w).2.1.alarms a =
      { w.alarms a with
        fired_ := (w.alarms a).fired_ ||
          (scanFrom now l w).2.2.any (fun f => decide (f.alarm = a) && f.reported) } := by
  induction l generalizing w with
  | nil => simp [scanFrom]
  | cons x next ih =>
    unfold scanFrom
    by_cases h : (w.alarms x).deadline_ ≤ now
    · simp only [h, if_true]
      rw [ih, fireAlarm_alarm]
      simp only [List.any_cons, fireAlarm_reported]
      have hx : (fireAlarm w x).2.alarm = x := by rw [fireAlarm_firing]
      rw [hx]
      by_cases hax : a = x
      · subst hax; simp [Bool.or_assoc]
      · have hxa : ¬ x = a := fun h => hax h.symm
        simp [hax, hxa]
    · simp only [h, if_false]
      rw [ih]

theorem scanFrom_deadline (now : Int) (l : List Nat) (w : Registry) (a : Nat) :
    ((scanFrom now l w).2.1.alarms a).deadline_ = (w.alarms a).deadline_ := by
  rw [scanFrom_alarm]

theorem scanFrom_counter (now : Int) (l : List Nat) (w : Registry) (a : Nat) :
    ((scanFrom now l w).2.1.alarms a).counter_ = (w.alarms a).counter_ := by
  rw [scanFrom_alarm]

theorem scanFrom_msg (now : Int) (l : List Nat) (w : Registry) (a : Nat) :
    ((scanFrom now l w).2.1.alarms a).msg = (w.alarms a).msg := by
  rw [scanFrom_alarm]; rfl

theorem scanFrom_fired (now : Int) (l : List Nat) (w : Registry) (a : Nat) :
    ((scanFrom now l w).2.1.alarms a).fired_ = ((w.alarms a).fired_ ||
      (scanFrom now l w).2.2.any (fun f => decide (f.alarm = a) && f.reported)) := by
  rw [scanFrom_alarm]

theorem scanFrom_kept (now : Int) (l : List Nat) (w : Registry) :
    (scanFrom now l w).1 = l.filter (fun a => decide (now < (w.alarms a).deadline_)) := by
  induction l generalizing w with
  | nil => simp [scanFrom]
  | cons x next ih =>
    unfold scanFrom
    by_cases h : (w.alarms x).deadline_ ≤ now
    · have h2 : ¬ now < (w.alarms x).deadline_ := not_lt.mpr h
      simp only [h, if_true, ih, fireAlarm_deadline, List.filter_cons, h2, decide_False]
      simp
    · have h2 : now < (w.alarms x).deadline_ := not_le.mp h
      simp only [h, if_false, ih, List.filter_cons, h2, decide_True]
      simp

theorem scanFrom_fired_alarms (now : Int) (l : List Nat) (w : Registry) :
    (scanFrom now l w).2.2.map Firing.alarm =
      l.filter (fun a => decide ((w.alarms a).deadline_ ≤ now)) := by
  induction l generalizing w with
  | nil => simp [scanFrom]
  | cons x next ih =>
    unfold scanFrom
    by_cases h : (w.alarms x).deadline_ ≤ now
    · have hx : (fireAlarm w x).2.alarm = x := by rw [fireAlarm_firing]
      simp only [h, if_true, List.map_cons, ih, fireAlarm_deadline, List.filter_cons,
        decide_True, hx]
    · simp only [h, if_false, ih, List.filter_cons, decide_False]
      simp

theorem scanFrom_outstanding (now : Int) (l : List Nat) (w : Registry) :
    (scanFrom now l w).2.1.outstanding_alarms = w.outstanding_alarms := by
  induction l generalizing w with
  | nil => simp [scanFrom]
  | cons x next ih =>
    unfold scanFrom
    by_cases h : (w.alarms x).deadline_ ≤ now
    · simp only [h, if_true, ih, fireAlarm_outstanding]
    · simp only [h, if_false, ih]

/-- Every firing of a scan carries the counter of its alarm, and its text is
the alarm's message exactly when the captured count passes the throttle test. -/
theorem scanFrom_firing_shape (now : Int) (l : List Nat) (w : Registry) (f : Firing)
    (hf : f ∈ (scanFrom now l w).2.2) :
    f.alarm ∈ l ∧ (w.alarms f.alarm).deadline_ ≤ now ∧
    f.counter = (w.alarms f.alarm).counter_ ∧
    f.logged = (if reportTest f.count then some (w.alarms f.alarm).msg else none) := by
  induction l generalizing w with
  | nil => simp [scanFrom] at hf
  | cons x next ih =>
    unfold scanFrom at hf
    by_cases h : (w.alarms x).deadline_ ≤ now
    · simp only [h, if_true, List.mem_cons] at hf
      rcases hf with hf | hf
      · subst hf
        rw [fireAlarm_firing]
        simp [h]
      · obtain ⟨h1, h2, h3, h4⟩ := ih _ hf
        rw [fireAlarm_deadline] at h2
        rw [fireAlarm_counter] at h3
        rw [fireAlarm_msg] at h4
        exact ⟨List.mem_cons_of_mem _ h1, h2, h3, h4⟩
    · simp only [h, if_false] at hf
      obtain ⟨h1, h2, h3, h4⟩ := ih _ hf
      exact ⟨List.mem_cons_of_mem _ h1, h2, h3, h4⟩

theorem firing_reported_of_shape (f : Firing) (m : String)
    (h : f.logged = (if reportTest f.count then some m else none)) :
    f.reported = reportTest f.count := by
  unfold Firing.reported
  rw [h]
  by_cases ht : reportTest f.count = true <;> simp [ht]

/-! ## Counters during a scan -/

theorem wrap64_wrap64_succ (n : Int) : wrap64 (wrap64 n + 1) = wrap64 (n + 1) := by
  unfold wrap64; omega

theorem wrap64_of_range (n : Int) (hlo : -2 ^ 63 ≤ n) (hhi : n < 2 ^ 63) : wrap64 n = n := by
  unfold wrap64; omega

theorem range_succ_map_wrap (n : Int) (K : Nat) :
    (List.range (K + 1)).map (fun i : Nat => wrap64 (n + i)) =
      wrap64 n :: (List.range K).map (fun i : Nat => wrap64 (n + 1 + i)) := by
  rw [List.range_succ_eq_map, List.map_cons, List.map_map]
  congr 1
  · simp
  · apply List.map_congr_left
    intro i _
    simp only [Function.comp, Nat.succ_eq_add_one]
    congr 1
    push_cast
    ring

/-- The counts captured on counter `c` during a scan are consecutive values
starting from the counter's value, and the counter ends past the last one. -/
theorem scanFrom_counts (now : Int) (c : Nat) (l : List Nat) (w : Registry) (n : Int)
    (hn : w.counters c = wrap64 n) :
    (firingsOn c (scanFrom now l w).2.2).map Firing.count =
        (List.range (firingsOn c (scanFrom now l w).2.2).length).map
          (fun i : Nat => wrap64 (n + i)) ∧
    (scanFrom now l w).2.1.counters c =
        wrap64 (n + (firingsOn c (scanFrom now l w).2.2).length) := by
  induction l generalizing w n with
  | nil => simp [scanFrom, firingsOn, hn]
  | cons x next ih =>
    unfold scanFrom
    by_cases h : (w.alarms x).deadline_ ≤ now
    · simp only [h, if_true]
      by_cases hc : (w.alarms x).counter_ = some c
      · have hcnt : (fireAlarm w x).2.count = wrap64 n := by
          rw [fireAlarm_firing]; simp [capturedCount, hc, hn]
        have hctr : (fireAlarm w x).2.counter = some c := by
          rw [fireAlarm_firing]; simp [hc]
        have hnew : (fireAlarm w x).1.counters c = wrap64 (n + 1) := by
          rw [fireAlarm_counters]
          simp [countersAfterFetch, hc, hn, wrap64_wrap64_succ]
        obtain ⟨ih1, ih2⟩ := ih (fireAlarm w x).1 (n + 1) hnew
        have hfilter : firingsOn c ((fireAlarm w x).2 ::
            (scanFrom now next (fireAlarm w x).1).2.2) =
            (fireAlarm w x).2 :: firingsOn c (scanFrom now next (fireAlarm w x).1).2.2 := by
          simp [firingsOn, hctr]
        rw [hfilter]
        simp only [List.map_cons, List.length_cons, range_succ_map_wrap, hcnt, ih1, ih2]
        constructor
        · trivial
        · congr 1; push_cast; ring
      · have hctr : ¬ (fireAlarm w x).2.counter = some c := by
          rw [fireAlarm_firing]; simpa using hc
        have hnew : (fireAlarm w x).1.counters c = wrap64 n := by
          rw [fireAlarm_counters, ← hn]
          unfold countersAfterFetch
          cases hx : (w.alarms x).counter_ with
          | none => rfl
          | some c2 =>
            have : c ≠ c2 := by
              intro hcc; apply hc; rw [hx, hcc]
            simp [Function.update_noteq this]
        have hfilter : firingsOn c ((fireAlarm w x).2 ::
            (scanFrom now next (fireAlarm w x).1).2.2) =
            firingsOn c (scanFrom now next (fireAlarm w x).1).2.2 := by
          simp [firingsOn, hctr]
        rw [hfilter]
        exact ih (fireAlarm w x).1 n hnew
    · simp only [h, if_false]
      exact ih w n hn

/-! ## One scanning pass -/

theorem scan_outstanding (now : Int) (w : Registry) :
    (AlarmLoop_scan now w).1.outstanding_alarms =
      w.outstanding_alarms.filter (fun a => decide (now < (w.alarms a).deadline_)) := by
  simp [AlarmLoop_scan, scanFrom_kept]

theorem scan_alarm (now : Int) (w : Registry) (a : Nat) :
    (AlarmLoop_scan now w).1.alarms a =
      { w.alarms a with
        fired_ := (w.alarms a).fired_ ||
          (AlarmLoop_scan now w).2.any (fun f => decide (f.alarm = a) && f.reported) } := by
  simp only [AlarmLoop_scan]
  exact scanFrom_alarm now _ w a

theorem scan_fired (now : Int) (w : Registry) (a : Nat) :
    ((AlarmLoop_scan now w).1.alarms a).fired_ = ((w.alarms a).fired_ ||
      (AlarmLoop_scan now w).2.any (fun f => decide (f.alarm = a) && f.reported)) := by
  rw [scan_alarm]

theorem scan_deadline (now : Int) (w : Registry) (a : Nat) :
    ((AlarmLoop_scan now w).1.alarms a).deadline_ = (w.alarms a).deadline_ := by
  rw [scan_alarm]

theorem scan_counter (now : Int) (w : Registry) (a : Nat) :
    ((AlarmLoop_scan now w).1.alarms a).counter_ = (w.alarms a).counter_ := by
  rw [scan_alarm]

theorem scan_fired_alarms (now : Int) (w : Registry) :
    (AlarmLoop_scan now w).2.map Firing.alarm =
      w.outstanding_alarms.filter (fun a => decide ((w.alarms a).deadline_ ≤ now)) := by
  simp only [AlarmLoop_scan]
  exact scanFrom_fired_alarms now _ w

theorem scan_firing_shape (now : Int) (w : Registry) (f : Firing)
    (hf : f ∈ (AlarmLoop_scan now w).2) :
    f.alarm ∈ w.outstanding_alarms ∧ (w.alarms f.alarm).deadline_ ≤ now ∧
    f.counter = (w.alarms f.alarm).counter_ ∧
    f.logged = (if reportTest f.count then some (w.alarms f.alarm).msg else none) := by
  simp only [AlarmLoop_scan] at hf
  exact scanFrom_firing_shape now _ w f hf

theorem scan_counts (now : Int) (c : Nat) (w : Registry) (n : Int)
    (hn : w.counters c = wrap64 n) :
    (firingsOn c (AlarmLoop_scan now w).2).map Firing.count =
        (List.range (firingsOn c (AlarmLoop_scan now w).2).length).map
          (fun i : Nat => wrap64 (n + i)) ∧
    (AlarmLoop_scan now w).1.counters c =
        wrap64 (n + (firingsOn c (AlarmLoop_scan now w).2).length) := by
  simp only [AlarmLoop_scan]
  exact scanFrom_counts now c _ w n hn

theorem scanFrom_firing_nocounter (now : Int) (l : List Nat) (w : Registry) (f : Firing)
    (hf : f ∈ (scanFrom now l w).2.2) (hc : f.counter = none) : f.count = 0 := by
  induction l generalizing w with
  | nil => simp [scanFrom] at hf
  | cons x next ih =>
    unfold scanFrom at hf
    by_cases h : (w.alarms x).deadline_ ≤ now
    · simp only [h, if_true, List.mem_cons] at hf
      rcases hf with hf | hf
      · subst hf
        rw [fireAlarm_firing] at hc ⊢
        simp only at hc ⊢
        simp [capturedCount, hc]
      · exact ih _ hf
    · simp only [h, if_false] at hf
      exact ih _ hf

/-! ## C1 -/

/-- C1: the code at the failing input.  An expired alarm whose counter holds
`-2^63` is reported by the scan (text logged, `fired_` set) once `count - 1`
wraps to `2^63 - 1`, although the alarm has a counter and `-2^63` is neither
zero nor a power of two. -/
theorem C1_fires_at_int64_min :
    (AlarmLoop_scan 0 minCountRegistry).2 = [⟨0, some 0, -2 ^ 63, some "slow"⟩] ∧
    ((AlarmLoop_scan 0 minCountRegistry).1.alarms 0).fired_ = true ∧
    wrap64 (-2 ^ 63 - 1) = 2 ^ 63 - 1 ∧
    reportTest (-2 ^ 63) = true ∧
    ¬ (((-2 ^ 63 : Int) = 0) ∨ IsPow2 (-2 ^ 63)) := by
  refine ⟨by decide, by decide, by decide, by decide, ?_⟩
  rintro (h | h)
  · exact absurd h (by decide)
  · exact not_isPow2_of_neg _ (by decide) h

/-- Away from the least 64-bit value the throttle behaves as documented: an
alarm a scan erases as expired, with a captured `count` above `-2^63`, is
reported (text logged, `fired_` set) if and only if it has no counter, or
`count` is zero, or `count` is a power of two. -/
theorem throttle_agrees_above_int64_min (now : Int) (w : Registry) (f : Firing)
    (hf : f ∈ (AlarmLoop_scan now w).2)
    (hlo : -2 ^ 63 < f.count) (hhi : f.count < 2 ^ 63) :
    (f.reported = true ↔ (f.counter = none ∨ f.count = 0 ∨ IsPow2 f.count)) ∧
    (f.reported = reportTest f.count) ∧
    (reportTest f.count = true ↔ (f.count = 0 ∨ IsPow2 f.count)) ∧
    (f.reported = true → f.logged = some (w.alarms f.alarm).msg ∧
      ((AlarmLoop_scan now w).1.alarms f.alarm).fired_ = true) ∧
    (f.reported = false → f.logged = none) := by
  obtain ⟨_, _, _, h4⟩ := scan_firing_shape now w f hf
  have hrep := firing_reported_of_shape f _ h4
  have hiff : reportTest f.count = true ↔ (f.count = 0 ∨ IsPow2 f.count) := by
    rw [reportTest_iff f.count (le_of_lt hlo) hhi]
    constructor
    · rintro (h | h | h)
      · exact Or.inl h
      · exact Or.inr h
      · omega
    · rintro (h | h)
      · exact Or.inl h
      · exact Or.inr (Or.inl h)
  refine ⟨?_, hrep, hiff, ?_, ?_⟩
  · rw [hrep, hiff]
    constructor
    · intro h; exact Or.inr h
    · rintro (h | h)
      · left
        simp only [AlarmLoop_scan] at hf
        exact scanFrom_firing_nocounter now _ w f hf h
      · exact h
  · intro hr
    rw [hrep] at hr
    refine ⟨by rw [h4]; simp [hr], ?_⟩
    rw [scan_fired]
    have : (AlarmLoop_scan now w).2.any (fun g => decide (g.alarm = f.alarm) && g.reported)
        = true := by
      rw [List.any_eq_true]
      exact ⟨f, hf, by simp [hrep, hr]⟩
    simp [this]
  · intro hr
    rw [hrep] at hr
    rw [h4]; simp [hr]

/-- In the sample state alarm 0 is bound to a counter holding 3: the bit test
fails on 3 and the scan at time 10 suppresses the alarm. -/
theorem throttle_agrees_sample :
    (⟨0, some 0, 3, none⟩ : Firing) ∈ (AlarmLoop_scan 10 sampleRegistry).2 ∧
    reportTest 3 = false ∧
    ((⟨0, some 0, 3, none⟩ : Firing).reported = true ↔
      ((some 0 : Option Nat) = none ∨ (3 : Int) = 0 ∨ IsPow2 3)) :=
  ⟨by decide, by decide,
   (throttle_agrees_above_int64_min 10 sampleRegistry ⟨0, some 0, 3, none⟩ (by decide)
     (by decide) (by decide)).1⟩

/-! ## C4 -/

/-- C4: one Scanning pass at `now` leaves in `outstanding_alarms` exactly the
alarms whose deadline is after `now`, in their original order (every alarm
with `deadline <= now` is erased, reported or not), and changes no deadline. -/
theorem C4_scan_live_set (now : Int) (w : Registry) :
    (AlarmLoop_scan now w).1.outstanding_alarms =
      w.outstanding_alarms.filter (fun a => decide (now < (w.alarms a).deadline_)) ∧
    (∀ a, a ∈ (AlarmLoop_scan now w).1.outstanding_alarms ↔
      (a ∈ w.outstanding_alarms ∧ ¬ (w.alarms a).deadline_ ≤ now)) ∧
    (∀ a, ((AlarmLoop_scan now w).1.alarms a).deadline_ = (w.alarms a).deadline_) := by
  refine ⟨scan_outstanding now w, ?_, scan_deadline now w⟩
  intro a
  rw [scan_outstanding, List.mem_filter]
  simp

/-! ## C8 -/

theorem UnscheduleAlarm_absent (w : Registry) (alarm : Nat)
    (h : alarm ∉ w.outstanding_alarms) : UnscheduleAlarm alarm w = w := by
  cases w with
  | mk alarms counters outstanding signals =>
    simp only [UnscheduleAlarm] at h ⊢
    rw [List.erase_of_not_mem h]

/-- C8: `UnscheduleAlarm` removes a present alarm (its first entry) and keeps
every other entry in order; leaves the collection unchanged when the alarm is
absent; on a collection without repeated entries a second call changes nothing;
and it never touches an alarm object, a counter or the condition variable. -/
theorem C8_unschedule (w : Registry) (alarm : Nat) :
    (alarm ∈ w.outstanding_alarms →
      ∃ l1 l2, w.outstanding_alarms = l1 ++ alarm :: l2 ∧ alarm ∉ l1 ∧
        (UnscheduleAlarm alarm w).outstanding_alarms = l1 ++ l2) ∧
    (alarm ∉ w.outstanding_alarms → UnscheduleAlarm alarm w = w) ∧
    (w.outstanding_alarms.Nodup →
      alarm ∉ (UnscheduleAlarm alarm w).outstanding_alarms ∧
      UnscheduleAlarm alarm (UnscheduleAlarm alarm w) = UnscheduleAlarm alarm w) ∧
    (UnscheduleAlarm alarm w).alarms = w.alarms ∧
    (UnscheduleAlarm alarm w).counters = w.counters ∧
    (UnscheduleAlarm alarm w).signals = w.signals := by
  refine ⟨?_, UnscheduleAlarm_absent w alarm, ?_, rfl, rfl, rfl⟩
  · intro h
    obtain ⟨l1, l2, h1, h2, h3⟩ := List.exists_erase_eq h
    exact ⟨l1, l2, h2, h1, h3⟩
  · intro hnd
    have hout : alarm ∉ (UnscheduleAlarm alarm w).outstanding_alarms := by
      simp only [UnscheduleAlarm]
      exact fun hm => (List.Nodup.mem_erase_iff hnd).1 hm |>.1 rfl
    exact ⟨hout, UnscheduleAlarm_absent _ alarm hout⟩

/-- C8 witness: unregistering alarm 1 of the sample state twice is the same as
unregistering it once. -/
theorem C8_unschedule_witness :
    [0, 1, 2].Nodup ∧ 1 ∉ (UnscheduleAlarm 1 sampleRegistry).outstanding_alarms ∧
    UnscheduleAlarm 1 (UnscheduleAlarm 1 sampleRegistry) = UnscheduleAlarm 1 sampleRegistry :=
  ⟨by decide, (C8_unschedule sampleRegistry 1).2.2.1 (by decide)⟩

/-! ## C9 -/

theorem c_min_element_spec (d : Nat → Int) (first : Nat) (rest : List Nat) :
    c_min_element (fun a b => decide (d a < d b)) first rest ∈ first :: rest ∧
    ∀ b ∈ first :: rest,
      d (c_min_element (fun a b => decide (d a < d b)) first rest) ≤ d b := by
  induction rest generalizing first with
  | nil => simp [c_min_element]
  | cons x xs ih =>
    have hstep : c_min_element (fun a b => decide (d a < d b)) first (x :: xs) =
        c_min_element (fun a b => decide (d a < d b))
          (if decide (d x < d first) = true then x else first) xs := by
      simp [c_min_element]
    rw [hstep]
    obtain ⟨hmem, hmin⟩ := ih (if decide (d x < d first) = true then x else first)
    by_cases hlt : d x < d first
    · simp only [hlt, decide_True, if_true] at hmem hmin ⊢
      refine ⟨?_, ?_⟩
      · rcases List.mem_cons.1 hmem with h | h
        · rw [h]; simp
        · exact List.mem_cons_of_mem _ (List.mem_cons_of_mem _ h)
      · intro b hb
        rcases List.mem_cons.1 hb with h | h
        · have := hmin x (List.mem_cons_self _ _)
          rw [h]; omega
        · exact hmin b h
    · simp only [hlt, decide_False, if_false, Bool.false_eq_true] at hmem hmin ⊢
      refine ⟨?_, ?_⟩
      · rcases List.mem_cons.1 hmem with h | h
        · rw [h]; simp
        · exact List.mem_cons_of_mem _ (List.mem_cons_of_mem _ h)
      · intro b hb
        rcases List.mem_cons.1 hb with h | h
        · rw [h]; exact hmin first (List.mem_cons_self _ _)
        · rcases List.mem_cons.1 h with h2 | h2
          · have := hmin first (List.mem_cons_self _ _)
            rw [h2]; omega
          · exact hmin b (List.mem_cons_of_mem _ h2)

theorem AlarmLoop_wait_spec (w : Registry) :
    (AlarmLoop_wait w = WaitCall.Wait ↔ w.outstanding_alarms = []) ∧
    (∀ d, AlarmLoop_wait w = WaitCall.WaitWithDeadline d ↔
      ((∃ a ∈ w.outstanding_alarms, (w.alarms a).deadline_ = d) ∧
       ∀ b ∈ w.outstanding_alarms, d ≤ (w.alarms b).deadline_)) := by
  unfold AlarmLoop_wait
  cases hL : w.outstanding_alarms with
  | nil => simp
  | cons first rest =>
    obtain ⟨hmem, hmin⟩ := c_min_element_spec (fun a => (w.alarms a).deadline_) first rest
    refine ⟨by simp, ?_⟩
    intro d
    simp only [WaitCall.WaitWithDeadline.injEq]
    constructor
    · intro h
      subst h
      exact ⟨⟨_, hmem, rfl⟩, hmin⟩
    · rintro ⟨⟨a, ha, rfl⟩, hall⟩
      have h1 := hmin a ha
      have h2 := hall _ hmem
      omega

/-- C9: after a scan the loop calls `Wait` (no deadline) exactly when the live
collection is empty, and otherwise calls `WaitWithDeadline` with the minimum
deadline: the deadline of some live alarm, not later than any live alarm's. -/
theorem C9_wait_deadline (now : Int) (w : Registry) :
    (AlarmLoop_wait (AlarmLoop_scan now w).1 = WaitCall.Wait ↔
      (AlarmLoop_scan now w).1.outstanding_alarms = []) ∧
    (∀ d, AlarmLoop_wait (AlarmLoop_scan now w).1 = WaitCall.WaitWithDeadline d ↔
      ((∃ a ∈ (AlarmLoop_scan now w).1.outstanding_alarms,
          ((AlarmLoop_scan now w).1.alarms a).deadline_ = d) ∧
       ∀ b ∈ (AlarmLoop_scan now w).1.outstanding_alarms,
          d ≤ ((AlarmLoop_scan now w).1.alarms b).deadline_)) :=
  AlarmLoop_wait_spec (AlarmLoop_scan now w).1

/-! ## C10 -/

/-- C10: for an alarm whose `fired_` is false before a scan, `fired_` is true
after it exactly when the scan logged the alarm's message; every text the scan
logs for the alarm is that message; an expired live alarm has a firing, and
when the throttle suppressed it the alarm is gone from the live collection with
`fired_` still false; an alarm that did not expire keeps its flag. -/
theorem C10_fired_reflects_report (now : Int) (w : Registry) (a : Nat)
    (h : (w.alarms a).fired_ = false) :
    (((AlarmLoop_scan now w).1.alarms a).fired_ = true ↔
      ∃ f ∈ (AlarmLoop_scan now w).2, f.alarm = a ∧ f.logged = some (w.alarms a).msg) ∧
    (∀ f ∈ (AlarmLoop_scan now w).2, f.alarm = a →
      f.logged = some (w.alarms a).msg ∨ f.logged = none) ∧
    (a ∈ w.outstanding_alarms → (w.alarms a).deadline_ ≤ now →
      (∃ f ∈ (AlarmLoop_scan now w).2, f.alarm = a) ∧
      ((∀ f ∈ (AlarmLoop_scan now w).2, f.alarm = a → f.reported = false) →
        a ∉ (AlarmLoop_scan now w).1.outstanding_alarms ∧
        ((AlarmLoop_scan now w).1.alarms a).fired_ = false)) ∧
    (∀ b, now < (w.alarms b).deadline_ →
      ((AlarmLoop_scan now w).1.alarms b).fired_ = (w.alarms b).fired_) := by
  have hshape : ∀ f ∈ (AlarmLoop_scan now w).2, f.alarm = a →
      f.logged = some (w.alarms a).msg ∨ f.logged = none := by
    intro f hf hfa
    obtain ⟨_, _, _, h4⟩ := scan_firing_shape now w f hf
    rw [hfa] at h4
    by_cases ht : reportTest f.count = true
    · left; rw [h4]; simp [ht]
    · right; rw [h4]; simp [ht]
  have hnone : ∀ b, (∀ f ∈ (AlarmLoop_scan now w).2, f.alarm = b → f.reported = false) →
      (AlarmLoop_scan now w).2.any (fun f => decide (f.alarm = b) && f.reported) = false := by
    intro b hb
    rw [List.any_eq_false]
    intro f hf
    by_cases hfb : f.alarm = b
    · simp [hb f hf hfb]
    · simp [hfb]
  refine ⟨?_, hshape, ?_, ?_⟩
  · rw [scan_fired, h, Bool.false_or, List.any_eq_true]
    constructor
    · rintro ⟨f, hf, hfa⟩
      simp only [Bool.and_eq_true, decide_eq_true_eq] at hfa
      refine ⟨f, hf, hfa.1, ?_⟩
      rcases hshape f hf hfa.1 with h1 | h1
      · exact h1
      · have := hfa.2
        simp [Firing.reported, h1] at this
    · rintro ⟨f, hf, hfa, hlog⟩
      exact ⟨f, hf, by simp [hfa, Firing.reported, hlog]⟩
  · intro hmem hexp
    refine ⟨?_, ?_⟩
    · have : a ∈ (AlarmLoop_scan now w).2.map Firing.alarm := by
        rw [scan_fired_alarms, List.mem_filter]
        exact ⟨hmem, by simpa using hexp⟩
      obtain ⟨f, hf, hfa⟩ := List.mem_map.1 this
      exact ⟨f, hf, hfa⟩
    · intro hsup
      refine ⟨?_, ?_⟩
      · rw [scan_outstanding, List.mem_filter]
        intro hc
        have := hc.2
        simp only [decide_eq_true_eq] at this
        omega
      · rw [scan_fired, h, hnone a hsup]; rfl
  · intro b hb
    rw [scan_fired, hnone b ?_, Bool.or_false]
    intro f hf hfb
    obtain ⟨_, h2, _, _⟩ := scan_firing_shape now w f hf
    rw [hfb] at h2
    omega

/-- C10 witness: in the sample state alarm 0 (flag false) expires at time 10
with count 3, is suppressed, and its flag stays false. -/
theorem C10_fired_reflects_report_witness :
    (sampleRegistry.alarms 0).fired_ = false ∧
    (((AlarmLoop_scan 10 sampleRegistry).1.alarms 0).fired_ = true ↔
      ∃ f ∈ (AlarmLoop_scan 10 sampleRegistry).2,
        f.alarm = 0 ∧ f.logged = some (sampleRegistry.alarms 0).msg) :=
  ⟨by decide, (C10_fired_reflects_report 10 sampleRegistry 0 (by decide)).1⟩

/-! ## Runs -/

theorem run_append (s : Sys) (ops1 ops2 : List Op) :
    s.run (ops1 ++ ops2) = (s.run ops1).run ops2 := by
  induction ops1 generalizing s with
  | nil => rfl
  | cons op ops ih => simp [Sys.run, ih]

theorem allows_append (s : Sys) (ops1 ops2 : List Op) :
    s.allows (ops1 ++ ops2) = (s.allows ops1 && (s.run ops1).allows ops2) := by
  induction ops1 generalizing s with
  | nil => simp [Sys.allows, Sys.run]
  | cons op ops ih => simp [Sys.allows, Sys.run, ih, Bool.and_assoc]

/-- A property kept by every allowed operation of a run holds after the run. -/
theorem run_invariant (P : Sys → Prop) (ops : List Op) (s : Sys)
    (hstep : ∀ t op, op ∈ ops → P t → op.allowed t = true → P (t.step op))
    (hs : P s) (hal : s.allows ops = true) : P (s.run ops) := by
  induction ops generalizing s with
  | nil => exact hs
  | cons op ops ih =>
    simp only [Sys.allows, Bool.and_eq_true] at hal
    simp only [Sys.run]
    apply ih
    · intro t op2 hop2 ht hal2
      exact hstep t op2 (List.mem_cons_of_mem _ hop2) ht hal2
    · exact hstep s op (List.mem_cons_self _ _) hs hal.1
    · exact hal.2

theorem step_construct_outstanding (s : Sys) (this : Nat) (now timeout : Int)
    (msg_fn : Unit → String) (counter : Option Nat) :
    (s.step (Op.construct this now timeout msg_fn counter)).reg.outstanding_alarms =
      s.reg.outstanding_alarms ++ [this] := rfl

theorem step_construct_alarm_ne (s : Sys) (this : Nat) (now timeout : Int)
    (msg_fn : Unit → String) (counter : Option Nat) (a : Nat) (h : a ≠ this) :
    (s.step (Op.construct this now timeout msg_fn counter)).reg.alarms a = s.reg.alarms a := by
  simp [Sys.step, construct, ScheduleAlarm, Function.update_noteq h]

theorem step_construct_alarm_self (s : Sys) (this : Nat) (now timeout : Int)
    (msg_fn : Unit → String) (counter : Option Nat) :
    (s.step (Op.construct this now timeout msg_fn counter)).reg.alarms this =
      ⟨now + timeout, msg_fn, false, counter⟩ := by
  simp [Sys.step, construct, ScheduleAlarm]

theorem Sys.Inv.init (counters : Nat → Int) : (Sys.init counters).Inv := by
  constructor <;> simp [Sys.init]

theorem Sys.Inv.step (s : Sys) (op : Op) (hs : s.Inv) (hal : op.allowed s = true) :
    (s.step op).Inv := by
  cases op with
  | construct this now timeout msg_fn counter =>
    simp only [Op.allowed, decide_eq_true_eq] at hal
    have hnl : this ∉ s.reg.outstanding_alarms := fun h => hal (hs.live_constructed _ h)
    constructor
    · rw [step_construct_outstanding]
      exact List.Nodup.append hs.nodup (List.nodup_singleton _)
        (by
          intro a ha hb
          rw [List.mem_singleton] at hb
          exact hnl (hb ▸ ha))
    · intro a ha
      rw [step_construct_outstanding, List.mem_append, List.mem_singleton] at ha
      simp only [Sys.step, List.mem_append, List.mem_singleton]
      rcases ha with ha | ha
      · exact Or.inl (hs.live_constructed a ha)
      · exact Or.inr ha
    · intro a ha
      rw [step_construct_outstanding, List.mem_append, List.mem_singleton] at ha
      simp only [Sys.step]
      rcases ha with ha | ha
      · exact hs.live_not_destroyed a ha
      · intro hd; exact hal (ha ▸ hs.destroyed_constructed a hd)
    · intro a ha
      rw [step_construct_outstanding, List.mem_append, List.mem_singleton] at ha
      simp only [Sys.step]
      rcases ha with ha | ha
      · exact hs.live_not_fired a ha
      · intro hd; exact hal (ha ▸ hs.firings_constructed a hd)
    · exact hs.firings_nodup
    · intro a ha
      simp only [Sys.step, List.mem_append, List.mem_singleton]
      exact Or.inl (hs.firings_constructed a ha)
    · intro a ha
      by_cases hat : a = this
      · subst hat
        rw [step_construct_alarm_self] at ha
        simp at ha
      · rw [step_construct_alarm_ne _ _ _ _ _ _ _ hat] at ha
        exact hs.fired_has_firing a ha
    · intro a ha
      simp only [Sys.step, List.mem_append, List.mem_singleton]
      exact Or.inl (hs.destroyed_constructed a ha)
  | destroy this =>
    simp only [Op.allowed, decide_eq_true_eq] at hal
    have hsub : ∀ a, a ∈ (s.step (Op.destroy this)).reg.outstanding_alarms →
        a ∈ s.reg.outstanding_alarms ∧ a ≠ this := by
      intro a ha
      simp only [Sys.step, destroy, UnscheduleAlarm] at ha
      exact ⟨List.mem_of_mem_erase ha, fun h => by
        subst h; exact ((List.Nodup.mem_erase_iff hs.nodup).1 ha).1 rfl⟩
    constructor
    · simp only [Sys.step, destroy, UnscheduleAlarm]
      exact List.Nodup.erase _ hs.nodup
    · intro a ha
      exact hs.live_constructed a (hsub a ha).1
    · intro a ha
      simp only [Sys.step, List.mem_append, List.mem_singleton, not_or]
      exact ⟨hs.live_not_destroyed a (hsub a ha).1, (hsub a ha).2⟩
    · intro a ha
      exact hs.live_not_fired a (hsub a ha).1
    · exact hs.firings_nodup
    · exact hs.firings_constructed
    · exact hs.fired_has_firing
    · intro a ha
      simp only [Sys.step, List.mem_append, List.mem_singleton] at ha
      rcases ha with ha | ha
      · exact hs.destroyed_constructed a ha
      · rw [ha]; exact hal.1
  | scan now =>
    have hout : (s.step (Op.scan now)).reg.outstanding_alarms =
        s.reg.outstanding_alarms.filter
          (fun a => decide (now < (s.reg.alarms a).deadline_)) := scan_outstanding now s.reg
    have hfir : (s.step (Op.scan now)).firings.map Firing.alarm =
        s.firings.map Firing.alarm ++ s.reg.outstanding_alarms.filter
          (fun a => decide ((s.reg.alarms a).deadline_ ≤ now)) := by
      simp only [Sys.step, List.map_append, scan_fired_alarms]
    constructor
    · rw [hout]; exact List.Nodup.filter _ hs.nodup
    · intro a ha
      rw [hout] at ha
      exact hs.live_constructed a (List.mem_of_mem_filter ha)
    · intro a ha
      rw [hout] at ha
      exact hs.live_not_destroyed a (List.mem_of_mem_filter ha)
    · intro a ha
      rw [hout, List.mem_filter] at ha
      rw [hfir, List.mem_append, List.mem_filter]
      rintro (h | h)
      · exact hs.live_not_fired a ha.1 h
      · have h1 := ha.2
        have h2 := h.2
        simp only [decide_eq_true_eq] at h1 h2
        omega
    · rw [hfir]
      apply List.Nodup.append hs.firings_nodup (List.Nodup.filter _ hs.nodup)
      intro a ha hb
      exact hs.live_not_fired a (List.mem_of_mem_filter hb) ha
    · intro a ha
      rw [hfir, List.mem_append] at ha
      rcases ha with ha | ha
      · exact hs.firings_constructed a ha
      · exact hs.live_constructed a (List.mem_of_mem_filter ha)
    · intro a ha
      have hf : ((AlarmLoop_scan now s.reg).1.alarms a).fired_ = true := ha
      rw [scan_fired, Bool.or_eq_true] at hf
      rcases hf with hf | hf
      · obtain ⟨f, hf1, hf2⟩ := hs.fired_has_firing a hf
        exact ⟨f, by simp only [Sys.step]; exact List.mem_append_left _ hf1, hf2⟩
      · rw [List.any_eq_true] at hf
        obtain ⟨f, hf1, hf2⟩ := hf
        simp only [Bool.and_eq_true, decide_eq_true_eq] at hf2
        exact ⟨f, by simp only [Sys.step]; exact List.mem_append_right _ hf1, hf2⟩
    · exact hs.destroyed_constructed

theorem Sys.Inv.run (s : Sys) (ops : List Op) (hs : s.Inv) (hal : s.allows ops = true) :
    (s.run ops).Inv :=
  run_invariant Sys.Inv ops s (fun t op _ ht h => Sys.Inv.step t op ht h) hs hal

theorem firingsOf_length_le_one (a : Nat) (fs : List Firing)
    (h : (fs.map Firing.alarm).Nodup) : (firingsOf a fs).length ≤ 1 := by
  induction fs with
  | nil => simp [firingsOf]
  | cons f fs ih =>
    rw [List.map_cons, List.nodup_cons] at h
    by_cases hfa : f.alarm = a
    · have hnil : firingsOf a fs = [] := by
        unfold firingsOf
        rw [List.filter_eq_nil_iff]
        intro g hg hga
        simp only [decide_eq_true_eq] at hga
        exact h.1 (hfa ▸ hga ▸ List.mem_map_of_mem _ hg)
      unfold firingsOf at hnil ⊢
      simp [List.filter_cons, hfa, hnil]
    · have := ih h.2
      unfold firingsOf at this ⊢
      simpa [List.filter_cons, hfa] using this

theorem firingsOf_eq_nil (a : Nat) (fs : List Firing)
    (h : a ∉ fs.map Firing.alarm) : firingsOf a fs = [] := by
  unfold firingsOf
  rw [List.filter_eq_nil_iff]
  intro g hg hga
  simp only [decide_eq_true_eq] at hga
  exact h (hga ▸ List.mem_map_of_mem _ hg)

theorem reportCount_le_length (fs : List Firing) : reportCount fs ≤ fs.length :=
  List.length_filter_le _ _

/-! ## C5 -/

/-- C5: in every run of allowed operations (constructions of new alarms,
destructions, scans at any times) the Reporter is invoked at most once for any
alarm, and once an alarm's `fired_` flag is true it is true ever after. -/
theorem C5_at_most_once (counters : Nat → Int) (ops1 ops2 : List Op) (a : Nat)
    (hal : (Sys.init counters).allows (ops1 ++ ops2) = true) :
    reportCount (firingsOf a ((Sys.init counters).run (ops1 ++ ops2)).firings) ≤ 1 ∧
    ((((Sys.init counters).run ops1).reg.alarms a).fired_ = true →
      (((Sys.init counters).run (ops1 ++ ops2)).reg.alarms a).fired_ = true) := by
  have hinv := Sys.Inv.run _ _ (Sys.Inv.init counters) hal
  refine ⟨le_trans (reportCount_le_length _) (firingsOf_length_le_one a _ hinv.firings_nodup), ?_⟩
  intro hf
  rw [allows_append, Bool.and_eq_true] at hal
  have hinv1 := Sys.Inv.run _ _ (Sys.Inv.init counters) hal.1
  rw [run_append]
  have key := run_invariant (fun t => t.Inv ∧ (t.reg.alarms a).fired_ = true) ops2
    ((Sys.init counters).run ops1) ?_ ⟨hinv1, hf⟩ hal.2
  · exact key.2
  · intro t op _ ht hop
    refine ⟨Sys.Inv.step t op ht.1 hop, ?_⟩
    cases op with
    | construct this now timeout msg_fn counter =>
      simp only [Op.allowed, decide_eq_true_eq] at hop
      obtain ⟨f, hf1, hf2, _⟩ := ht.1.fired_has_firing a ht.2
      have hne : a ≠ this := by
        intro h
        apply hop
        rw [← h, ← hf2]
        exact ht.1.firings_constructed _ (List.mem_map_of_mem _ hf1)
      rw [step_construct_alarm_ne _ _ _ _ _ _ _ hne]
      exact ht.2
    | destroy this => exact ht.2
    | scan now =>
      show ((AlarmLoop_scan now t.reg).1.alarms a).fired_ = true
      rw [scan_fired, ht.2]; rfl

/-- C5 witness: alarm 0 of the three-alarm run is reported by the scan, and
stays fired through a destruction and a later scan. -/
theorem C5_at_most_once_witness :
    reportCount (firingsOf 0
      ((Sys.init (fun _ => 0)).run (threeAlarms ++ [Op.destroy 0, Op.scan 20])).firings) ≤ 1 ∧
    (((Sys.init (fun _ => 0)).run threeAlarms).reg.alarms 0).fired_ = true ∧
    (((Sys.init (fun _ => 0)).run
      (threeAlarms ++ [Op.destroy 0, Op.scan 20])).reg.alarms 0).fired_ = true :=
  ⟨(C5_at_most_once (fun _ => 0) threeAlarms [Op.destroy 0, Op.scan 20] 0 (by decide)).1,
   by decide,
   (C5_at_most_once (fun _ => 0) threeAlarms [Op.destroy 0, Op.scan 20] 0 (by decide)).2
     (by decide)⟩

/-! ## C7 -/

/-- C7: in every state reached by allowed operations, no destroyed alarm is in
the live collection, the collection holds no alarm twice, and the single erase
of `UnscheduleAlarm` leaves no entry of the alarm behind. -/
theorem C7_registry_invariant (counters : Nat → Int) (ops : List Op)
    (hal : (Sys.init counters).allows ops = true) :
    (∀ a ∈ ((Sys.init counters).run ops).destroyed,
      a ∉ ((Sys.init counters).run ops).reg.outstanding_alarms) ∧
    ((Sys.init counters).run ops).reg.outstanding_alarms.Nodup ∧
    (∀ a, a ∉ (UnscheduleAlarm a ((Sys.init counters).run ops).reg).outstanding_alarms) := by
  have hinv := Sys.Inv.run _ _ (Sys.Inv.init counters) hal
  refine ⟨fun a ha hl => hinv.live_not_destroyed a hl ha, hinv.nodup, ?_⟩
  intro a ha
  simp only [UnscheduleAlarm] at ha
  exact ((List.Nodup.mem_erase_iff hinv.nodup).1 ha).1 rfl

/-- C7 witness: the run that cancels an alarm between two scans. -/
theorem C7_registry_invariant_witness :
    (∀ a ∈ ((Sys.init (fun _ => 0)).run cancelledAlarm).destroyed,
      a ∉ ((Sys.init (fun _ => 0)).run cancelledAlarm).reg.outstanding_alarms) ∧
    ((Sys.init (fun _ => 0)).run cancelledAlarm).reg.outstanding_alarms.Nodup ∧
    (∀ a, a ∉ (UnscheduleAlarm a
      ((Sys.init (fun _ => 0)).run cancelledAlarm).reg).outstanding_alarms) :=
  C7_registry_invariant (fun _ => 0) cancelledAlarm (by decide)

/-! ## C6 -/

/-- C6: when an alarm is destroyed before any scan at a time at or past its
deadline has run, then however the run continues there is never a firing for
it (no Reporter call and no counter increment on its behalf) and its `fired_`
flag is false. -/
theorem C6_no_premature_firing (counters : Nat → Int) (pre mid post : List Op)
    (this : Nat) (now timeout : Int) (msg_fn : Unit → String) (counter : Option Nat)
    (hal : (Sys.init counters).allows
      (pre ++ [Op.construct this now timeout msg_fn counter] ++ mid ++
        [Op.destroy this] ++ post) = true)
    (hmid : ∀ t, Op.scan t ∈ mid → t < now + timeout) :
    firingsOf this ((Sys.init counters).run
      (pre ++ [Op.construct this now timeout msg_fn counter] ++ mid ++
        [Op.destroy this] ++ post)).firings = [] ∧
    (((Sys.init counters).run
      (pre ++ [Op.construct this now timeout msg_fn counter] ++ mid ++
        [Op.destroy this] ++ post)).reg.alarms this).fired_ = false := by
  simp only [allows_append, Bool.and_eq_true, run_append] at hal ⊢
  obtain ⟨⟨⟨⟨hpre, hcon⟩, hmidal⟩, hdes⟩, hpost⟩ := hal
  have inv0 := Sys.Inv.run _ pre (Sys.Inv.init counters) hpre
  -- the construction
  have hcon1 : (Op.construct this now timeout msg_fn counter).allowed
      ((Sys.init counters).run pre) = true := by
    simpa [Sys.allows] using hcon
  have inv1 := Sys.Inv.step _ _ inv0 hcon1
  have hlive1 : this ∈ (((Sys.init counters).run pre).step
      (Op.construct this now timeout msg_fn counter)).reg.outstanding_alarms := by
    rw [step_construct_outstanding]; simp
  -- the operations up to the destruction
  have hB := run_invariant
    (fun t => t.Inv ∧ this ∈ t.constructed ∧
      (t.reg.alarms this).deadline_ = now + timeout ∧ this ∉ t.firings.map Firing.alarm)
    mid (((Sys.init counters).run pre).run [Op.construct this now timeout msg_fn counter])
    ?_ ⟨inv1, inv1.live_constructed _ hlive1, ?_, inv1.live_not_fired _ hlive1⟩ hmidal
  rotate_left
  · intro t op hop ht hopal
    refine ⟨Sys.Inv.step t op ht.1 hopal, ?_⟩
    obtain ⟨_, hc, hd, hf⟩ := ht
    cases op with
    | construct x n2 t2 m2 c2 =>
      simp only [Op.allowed, decide_eq_true_eq] at hopal
      have hne : this ≠ x := fun h => hopal (h ▸ hc)
      refine ⟨?_, ?_, hf⟩
      · simp only [Sys.step, List.mem_append]; exact Or.inl hc
      · rw [step_construct_alarm_ne _ _ _ _ _ _ _ hne]; exact hd
    | destroy x => exact ⟨hc, hd, hf⟩
    | scan t2 =>
      have hlt := hmid t2 hop
      refine ⟨hc, ?_, ?_⟩
      · show ((AlarmLoop_scan t2 t.reg).1.alarms this).deadline_ = now + timeout
        rw [scan_deadline]; exact hd
      · simp only [Sys.step, List.map_append, scan_fired_alarms, List.mem_append,
          List.mem_filter, decide_eq_true_eq, not_or, not_and]
        exact ⟨hf, fun _ => by omega⟩
  · show ((((Sys.init counters).run pre).step
      (Op.construct this now timeout msg_fn counter)).reg.alarms this).deadline_ = now + timeout
    rw [step_construct_alarm_self]
  -- the destruction
  obtain ⟨inv2, hc2, _, hf2⟩ := hB
  have hdes1 : (Op.destroy this).allowed ((((Sys.init counters).run pre).run
      [Op.construct this now timeout msg_fn counter]).run mid) = true := by
    simpa [Sys.allows] using hdes
  have inv3 := Sys.Inv.step _ _ inv2 hdes1
  have hgone : this ∉ (((((Sys.init counters).run pre).run
      [Op.construct this now timeout msg_fn counter]).run mid).step
      (Op.destroy this)).reg.outstanding_alarms := by
    simp only [Sys.step, destroy, UnscheduleAlarm]
    exact fun h => ((List.Nodup.mem_erase_iff inv2.nodup).1 h).1 rfl
  -- every continuation
  have hD := run_invariant
    (fun t => t.Inv ∧ this ∈ t.constructed ∧ this ∉ t.reg.outstanding_alarms ∧
      this ∉ t.firings.map Firing.alarm)
    post ((((Sys.init counters).run pre).run
      [Op.construct this now timeout msg_fn counter]).run mid |>.run [Op.destroy this])
    ?_ ⟨inv3, hc2, hgone, hf2⟩ hpost
  rotate_left
  · intro t op _ ht hopal
    refine ⟨Sys.Inv.step t op ht.1 hopal, ?_⟩
    obtain ⟨_, hc, hl, hf⟩ := ht
    cases op with
    | construct x n2 t2 m2 c2 =>
      simp only [Op.allowed, decide_eq_true_eq] at hopal
      have hne : this ≠ x := fun h => hopal (h ▸ hc)
      refine ⟨?_, ?_, hf⟩
      · simp only [Sys.step, List.mem_append]; exact Or.inl hc
      · rw [step_construct_outstanding, List.mem_append, List.mem_singleton, not_or]
        exact ⟨hl, hne⟩
    | destroy x =>
      refine ⟨hc, ?_, hf⟩
      simp only [Sys.step, destroy, UnscheduleAlarm]
      exact fun h => hl (List.mem_of_mem_erase h)
    | scan t2 =>
      refine ⟨hc, ?_, ?_⟩
      · show this ∉ (AlarmLoop_scan t2 t.reg).1.outstanding_alarms
        rw [scan_outstanding]
        exact fun h => hl (List.mem_of_mem_filter h)
      · simp only [Sys.step, List.map_append, scan_fired_alarms, List.mem_append,
          List.mem_filter, not_or, not_and]
        exact ⟨hf, fun h => absurd h hl⟩
  obtain ⟨inv4, _, _, hf4⟩ := hD
  refine ⟨firingsOf_eq_nil _ _ hf4, ?_⟩
  by_contra hfired
  rw [Bool.not_eq_false] at hfired
  obtain ⟨f, hf1, hf2, _⟩ := inv4.fired_has_firing this hfired
  have hmem := List.mem_map_of_mem Firing.alarm hf1
  rw [hf2] at hmem
  exact hf4 hmem

/-- C6 witness: an alarm with deadline 500 is destroyed at time 10, after a
scan at time 5; the scan at time 600 does not fire it. -/
theorem C6_no_premature_firing_witness :
    firingsOf 0 ((Sys.init (fun _ => 0)).run
      ([] ++ [Op.construct 0 0 500 (fun _ => "slow") none] ++ [Op.scan 5] ++
        [Op.destroy 0] ++ [Op.scan 600])).firings = [] ∧
    (((Sys.init (fun _ => 0)).run
      ([] ++ [Op.construct 0 0 500 (fun _ => "slow") none] ++ [Op.scan 5] ++
        [Op.destroy 0] ++ [Op.scan 600])).reg.alarms 0).fired_ = false :=
  C6_no_premature_firing (fun _ => 0) [] [Op.scan 5] [Op.scan 600] 0 0 500
    (fun _ => "slow") none (by decide)
    (by
      intro t ht
      simp only [List.mem_singleton, Op.scan.injEq] at ht
      subst ht
      decide)

/-! ## The throttle over a run -/

theorem scanFrom_all_fire (now : Int) (l : List Nat) (w : Registry)
    (hnc : ∀ a ∈ l, (w.alarms a).counter_ = none)
    (hexp : ∀ a ∈ l, (w.alarms a).deadline_ ≤ now) :
    (scanFrom now l w).1 = [] ∧
    (scanFrom now l w).2.2 = l.map (fun a => ⟨a, none, 0, some (w.alarms a).msg⟩) := by
  induction l generalizing w with
  | nil => simp [scanFrom]
  | cons x next ih =>
    have hx : (w.alarms x).deadline_ ≤ now := hexp x (List.mem_cons_self _ _)
    have hcx : (w.alarms x).counter_ = none := hnc x (List.mem_cons_self _ _)
    have hcount : capturedCount w x = 0 := by simp [capturedCount, hcx]
    have ht : reportTest 0 = true := by decide
    obtain ⟨ih1, ih2⟩ := ih (fireAlarm w x).1
      (fun a ha => by rw [fireAlarm_counter]; exact hnc a (List.mem_cons_of_mem _ ha))
      (fun a ha => by rw [fireAlarm_deadline]; exact hexp a (List.mem_cons_of_mem _ ha))
    unfold scanFrom
    simp only [hx, if_true, ih1, ih2, List.map_cons, fireAlarm_firing, hcount, ht, hcx,
      fireAlarm_msg, true_and]

theorem filter_eq_singleton_of_nodup (l : List Nat) (a : Nat) (hnd : l.Nodup) (ha : a ∈ l) :
    l.filter (fun b => decide (b = a)) = [a] := by
  induction l with
  | nil => simp at ha
  | cons x xs ih =>
    rw [List.nodup_cons] at hnd
    by_cases hxa : x = a
    · subst hxa
      have hnil : xs.filter (fun b => decide (b = x)) = [] := by
        rw [List.filter_eq_nil_iff]
        intro b hb hbx
        simp only [decide_eq_true_eq] at hbx
        exact hnd.1 (hbx ▸ hb)
      simp [List.filter_cons, hnil]
    · have hmem : a ∈ xs := by
        rcases List.mem_cons.1 ha with h | h
        · exact absurd h.symm hxa
        · exact h
      simp [List.filter_cons, hxa, ih hnd.2 hmem]

/-- C11: when no live alarm has a counter and `now` is at or past every live
deadline, one scan produces one firing per live entry, in order, each carrying
that alarm's own message; every live alarm ends with `fired_` true; the live
collection ends empty and the loop calls `Wait`; and when the collection holds
no alarm twice, each alarm has exactly one firing, which is reported. -/
theorem C11_all_fire_without_counter (now : Int) (w : Registry)
    (hnc : ∀ a ∈ w.outstanding_alarms, (w.alarms a).counter_ = none)
    (hexp : ∀ a ∈ w.outstanding_alarms, (w.alarms a).deadline_ ≤ now) :
    (AlarmLoop_scan now w).2 =
      w.outstanding_alarms.map (fun a => ⟨a, none, 0, some (w.alarms a).msg⟩) ∧
    reportCount (AlarmLoop_scan now w).2 = w.outstanding_alarms.length ∧
    (∀ a ∈ w.outstanding_alarms, ((AlarmLoop_scan now w).1.alarms a).fired_ = true) ∧
    (AlarmLoop_scan now w).1.outstanding_alarms = [] ∧
    AlarmLoop_wait (AlarmLoop_scan now w).1 = WaitCall.Wait ∧
    (w.outstanding_alarms.Nodup → ∀ a ∈ w.outstanding_alarms,
      firingsOf a (AlarmLoop_scan now w).2 = [⟨a, none, 0, some (w.alarms a).msg⟩]) := by
  obtain ⟨h1, h2⟩ := scanFrom_all_fire now w.outstanding_alarms w hnc hexp
  have hfir : (AlarmLoop_scan now w).2 =
      w.outstanding_alarms.map (fun a => ⟨a, none, 0, some (w.alarms a).msg⟩) := by
    simp only [AlarmLoop_scan]; exact h2
  have hout : (AlarmLoop_scan now w).1.outstanding_alarms = [] := by
    simp only [AlarmLoop_scan]; exact h1
  refine ⟨hfir, ?_, ?_, hout, ?_, ?_⟩
  · rw [hfir]
    unfold reportCount
    rw [List.filter_eq_self.2, List.length_map]
    intro f hf
    obtain ⟨a, _, rfl⟩ := List.mem_map.1 hf
    rfl
  · intro a ha
    rw [scan_fired, Bool.or_eq_true]
    right
    rw [List.any_eq_true]
    refine ⟨⟨a, none, 0, some (w.alarms a).msg⟩, ?_, by simp [Firing.reported]⟩
    rw [hfir]
    exact List.mem_map.2 ⟨a, ha, rfl⟩
  · exact (AlarmLoop_wait_spec _).1.2 hout
  · intro hnd a ha
    rw [hfir]
    unfold firingsOf
    rw [List.filter_map]
    have hfil : w.outstanding_alarms.filter
        ((fun f : Firing => decide (f.alarm = a)) ∘
          (fun a => (⟨a, none, 0, some (w.alarms a).msg⟩ : Firing))) = [a] :=
      filter_eq_singleton_of_nodup _ a hnd ha
    rw [hfil]
    rfl

/-- C11 witness: the three alarms without a counter all fire in the scan at
time 50, each with its own message. -/
theorem C11_all_fire_without_counter_witness :
    (AlarmLoop_scan 50 noCounterRegistry).2 =
      [⟨0, none, 0, some "first"⟩, ⟨1, none, 0, some "second"⟩, ⟨2, none, 0, some "third"⟩] ∧
    (AlarmLoop_scan 50 noCounterRegistry).1.outstanding_alarms = [] ∧
    AlarmLoop_wait (AlarmLoop_scan 50 noCounterRegistry).1 = WaitCall.Wait :=
  ⟨(C11_all_fire_without_counter 50 noCounterRegistry (by decide) (by decide)).1,
   (C11_all_fire_without_counter 50 noCounterRegistry (by decide) (by decide)).2.2.2.1,
   (C11_all_fire_without_counter 50 noCounterRegistry (by decide) (by decide)).2.2.2.2.1⟩

/-! ## C14 -/

theorem scan_firingsOn_alarms (now : Int) (c : Nat) (w : Registry) :
    (firingsOn c (AlarmLoop_scan now w).2).map Firing.alarm =
      w.outstanding_alarms.filter (fun a =>
        decide ((w.alarms a).deadline_ ≤ now) && decide ((w.alarms a).counter_ = some c)) := by
  have hcongr : firingsOn c (AlarmLoop_scan now w).2 =
      (AlarmLoop_scan now w).2.filter
        ((fun a => decide ((w.alarms a).counter_ = some c)) ∘ Firing.alarm) := by
    unfold firingsOn
    apply List.filter_congr
    intro f hf
    obtain ⟨_, _, h3, _⟩ := scan_firing_shape now w f hf
    simp [Function.comp, h3]
  rw [hcongr, ← List.filter_map, scan_fired_alarms, List.filter_filter]
  apply List.filter_congr
  intro a _
  exact Bool.and_comm _ _

/-- C14: in one scan, counter `c` receives one `fetch_add(1)` per live alarm
bound to `c` whose deadline is at or before `now`, reported or not: its value
ends at the old value plus that number (in 64-bit arithmetic, and as plain
integers whenever the sum stays below `2^63`); the counts those alarms capture
are the successive values before each increment; a firing of an alarm without
a counter captures 0; and a counter no expired live alarm is bound to keeps
its value. -/
theorem C14_counter_accounting (now : Int) (c : Nat) (w : Registry)
    (hlo : -2 ^ 63 ≤ w.counters c) (hhi : w.counters c < 2 ^ 63) :
    (firingsOn c (AlarmLoop_scan now w).2).map Firing.alarm =
      w.outstanding_alarms.filter (fun a =>
        decide ((w.alarms a).deadline_ ≤ now) && decide ((w.alarms a).counter_ = some c)) ∧
    (AlarmLoop_scan now w).1.counters c =
      wrap64 (w.counters c + (firingsOn c (AlarmLoop_scan now w).2).length) ∧
    (w.counters c + (firingsOn c (AlarmLoop_scan now w).2).length < 2 ^ 63 →
      (AlarmLoop_scan now w).1.counters c =
        w.counters c + (firingsOn c (AlarmLoop_scan now w).2).length) ∧
    (firingsOn c (AlarmLoop_scan now w).2).map Firing.count =
      (List.range (firingsOn c (AlarmLoop_scan now w).2).length).map
        (fun i : Nat => wrap64 (w.counters c + i)) ∧
    (∀ f ∈ (AlarmLoop_scan now w).2, f.counter = none → f.count = 0) ∧
    ((∀ a ∈ w.outstanding_alarms, (w.alarms a).deadline_ ≤ now →
        (w.alarms a).counter_ ≠ some c) →
      (AlarmLoop_scan now w).1.counters c = w.counters c) := by
  have hbase : w.counters c = wrap64 (w.counters c) := (wrap64_of_range _ hlo hhi).symm
  obtain ⟨h1, h2⟩ := scan_counts now c w (w.counters c) hbase
  have halarms := scan_firingsOn_alarms now c w
  refine ⟨halarms, h2, ?_, h1, ?_, ?_⟩
  · intro hsum
    rw [h2]
    apply wrap64_of_range
    · have : (0 : Int) ≤ ((firingsOn c (AlarmLoop_scan now w).2).length : Int) :=
        Int.ofNat_nonneg _
      omega
    · exact hsum
  · intro f hf hnone
    simp only [AlarmLoop_scan] at hf
    exact scanFrom_firing_nocounter now _ w f hf hnone
  · intro hnone
    have hlen : (firingsOn c (AlarmLoop_scan now w).2).length = 0 := by
      rw [← List.length_map _ Firing.alarm, halarms, List.length_eq_zero, List.filter_eq_nil_iff]
      intro a ha hcond
      simp only [Bool.and_eq_true, decide_eq_true_eq] at hcond
      exact hnone a ha hcond.1 hcond.2
    rw [h2, hlen]
    simp only [Nat.cast_zero, add_zero]
    exact hbase.symm

/-- C14 witness: in the sample state counter 0 holds 3 and one alarm bound to
it (alarm 0) has expired at time 10; the scan leaves the counter at 4. -/
theorem C14_counter_accounting_witness :
    (AlarmLoop_scan 10 sampleRegistry).1.counters 0 =
      wrap64 (sampleRegistry.counters 0 +
        (firingsOn 0 (AlarmLoop_scan 10 sampleRegistry).2).length) ∧
    (firingsOn 0 (AlarmLoop_scan 10 sampleRegistry).2).length = 1 ∧
    (AlarmLoop_scan 10 sampleRegistry).1.counters 0 = 4 :=
  ⟨(C14_counter_accounting 10 0 sampleRegistry (by decide) (by decide)).2.1,
   by decide, by decide⟩

/-! ## C15 -/

/-- C17: whenever the loop calls `WaitWithDeadline` after the scan at `now`,
the deadline it passes is strictly after `now`; and it makes that call
whenever the live collection is not empty after the scan. -/
theorem C17_no_stale_deadline (now : Int) (w : Registry) :
    (∀ d, AlarmLoop_wait (AlarmLoop_scan now w).1 = WaitCall.WaitWithDeadline d → now < d) ∧
    ((AlarmLoop_scan now w).1.outstanding_alarms ≠ [] →
      ∃ d, AlarmLoop_wait (AlarmLoop_scan now w).1 = WaitCall.WaitWithDeadline d ∧
        now < d) := by
  have hlate : ∀ d, AlarmLoop_wait (AlarmLoop_scan now w).1 = WaitCall.WaitWithDeadline d →
      now < d := by
    intro d hd
    obtain ⟨⟨a, ha, hda⟩, _⟩ := ((AlarmLoop_wait_spec _).2 d).1 hd
    rw [scan_outstanding, List.mem_filter] at ha
    rw [scan_deadline] at hda
    have := ha.2
    simp only [decide_eq_true_eq] at this
    omega
  refine ⟨hlate, ?_⟩
  intro hne
  cases hw : AlarmLoop_wait (AlarmLoop_scan now w).1 with
  | Wait => exact absurd ((AlarmLoop_wait_spec _).1.1 hw) hne
  | WaitWithDeadline d => exact ⟨d, rfl, hlate d hw⟩

/-- C17 witness: after the scan of the sample state at time 10 only alarm 2
is live, and the loop waits until its deadline 20. -/
theorem C17_no_stale_deadline_witness :
    (AlarmLoop_scan 10 sampleRegistry).1.outstanding_alarms ≠ [] ∧
    AlarmLoop_wait (AlarmLoop_scan 10 sampleRegistry).1 = WaitCall.WaitWithDeadline 20 ∧
    ∃ d, AlarmLoop_wait (AlarmLoop_scan 10 sampleRegistry).1 = WaitCall.WaitWithDeadline d ∧
      (10 : Int) < d :=
  ⟨by decide, by decide, (C17_no_stale_deadline 10 sampleRegistry).2 (by decide)⟩

/-! ## C18 -/

/-- C18: when alarm `a` is not in the live collection, `ScheduleAlarm a`
appends it after the existing entries, and `UnscheduleAlarm a` right after
restores the collection; neither call changes an alarm object or a counter. -/
theorem C18_register_unregister (w : Registry) (alarm : Nat)
    (h : alarm ∉ w.outstanding_alarms) :
    (ScheduleAlarm alarm w).outstanding_alarms = w.outstanding_alarms ++ [alarm] ∧
    (UnscheduleAlarm alarm (ScheduleAlarm alarm w)).outstanding_alarms =
      w.outstanding_alarms ∧
    (ScheduleAlarm alarm w).alarms = w.alarms ∧
    (ScheduleAlarm alarm w).counters = w.counters ∧
    (UnscheduleAlarm alarm (ScheduleAlarm alarm w)).alarms = w.alarms ∧
    (UnscheduleAlarm alarm (ScheduleAlarm alarm w)).counters = w.counters := by
  refine ⟨rfl, ?_, rfl, rfl, rfl, rfl⟩
  simp only [UnscheduleAlarm, ScheduleAlarm]
  rw [List.erase_append_right _ h]
  simp

/-- C18 witness: registering alarm 7 in the sample state and unregistering it
gives back the collection `[0, 1, 2]`. -/
theorem C18_register_unregister_witness :
    (ScheduleAlarm 7 sampleRegistry).outstanding_alarms = [0, 1, 2, 7] ∧
    (UnscheduleAlarm 7 (ScheduleAlarm 7 sampleRegistry)).outstanding_alarms = [0, 1, 2] :=
  ⟨(C18_register_unregister sampleRegistry 7 (by decide)).1,
   (C18_register_unregister sampleRegistry 7 (by decide)).2.1⟩

/-! ## C13 -/

theorem Sys.Accounted.at_start (counters : Nat → Int) : (Sys.init counters).Accounted := by
  constructor <;> simp [Sys.init]

theorem Sys.Accounted.after_step (s : Sys) (op : Op) (hi : s.Inv) (hs : s.Accounted)
    (hal : op.allowed s = true) : (s.step op).Accounted := by
  cases op with
  | construct this now timeout msg_fn counter =>
    simp only [Op.allowed, decide_eq_true_eq] at hal
    constructor
    · simp only [Sys.step]
      exact List.Nodup.append hs.constructed_nodup (List.nodup_singleton _)
        (by
          intro a ha hb
          rw [List.mem_singleton] at hb
          exact hal (hb ▸ ha))
    · intro a ha hd hf
      simp only [Sys.step, List.mem_append, List.mem_singleton] at ha
      rw [step_construct_outstanding, List.mem_append, List.mem_singleton]
      rcases ha with ha | ha
      · exact Or.inl (hs.rest_live a ha hd hf)
      · exact Or.inr ha
    · intro f hf hr
      have hne : f.alarm ≠ this := by
        intro h
        exact hal (h ▸ hi.firings_constructed _ (List.mem_map_of_mem _ hf))
      rw [step_construct_alarm_ne _ _ _ _ _ _ _ hne]
      exact hs.reported_fired f hf hr
  | destroy this =>
    constructor
    · exact hs.constructed_nodup
    · intro a ha hd hf
      simp only [Sys.step, List.mem_append, List.mem_singleton, not_or] at hd
      simp only [Sys.step, destroy, UnscheduleAlarm]
      exact (List.mem_erase_of_ne hd.2).2 (hs.rest_live a ha hd.1 hf)
    · exact hs.reported_fired
  | scan now =>
    constructor
    · exact hs.constructed_nodup
    · intro a ha hd hf
      simp only [Sys.step, List.map_append, scan_fired_alarms, List.mem_append,
        List.mem_filter, decide_eq_true_eq, not_or, not_and] at hf
      have hlive := hs.rest_live a ha hd hf.1
      show a ∈ (AlarmLoop_scan now s.reg).1.outstanding_alarms
      rw [scan_outstanding, List.mem_filter]
      refine ⟨hlive, ?_⟩
      have := hf.2 hlive
      simp only [decide_eq_true_eq]
      omega
    · intro f hf hr
      show ((AlarmLoop_scan now s.reg).1.alarms f.alarm).fired_ = true
      rw [scan_fired, Bool.or_eq_true]
      simp only [Sys.step, List.mem_append] at hf
      rcases hf with hf | hf
      · exact Or.inl (hs.reported_fired f hf hr)
      · right
        rw [List.any_eq_true]
        exact ⟨f, hf, by simp [hr]⟩

theorem Sys.Accounted.after_run (counters : Nat → Int) (ops : List Op)
    (hal : (Sys.init counters).allows ops = true) :
    ((Sys.init counters).run ops).Inv ∧ ((Sys.init counters).run ops).Accounted :=
  run_invariant (fun t => t.Inv ∧ t.Accounted) ops (Sys.init counters)
    (fun t op _ ht h => ⟨Sys.Inv.step t op ht.1 h, Sys.Accounted.after_step t op ht.1 ht.2 h⟩)
    ⟨Sys.Inv.init counters, Sys.Accounted.at_start counters⟩ hal

theorem length_filter_add_not (l : List Nat) (p : Nat → Bool) :
    (l.filter (fun a => !p a)).length + (l.filter p).length = l.length := by
  induction l with
  | nil => rfl
  | cons x xs ih =>
    by_cases hp : p x = true
    · simp only [List.filter_cons, hp, Bool.not_true, if_true, List.length_cons]
      simp only [Bool.false_eq_true, if_false]
      omega
    · simp only [Bool.not_eq_true] at hp
      simp only [List.filter_cons, hp, Bool.not_false, if_true, List.length_cons]
      simp only [Bool.false_eq_true, if_false]
      omega

/-- C13, as stated, fails: after the run of four alarms sharing one counter,
four alarms were constructed, none destroyed, three have `fired() == true`,
and the live collection is empty, not of size one: the fourth alarm expired
and was suppressed by the throttle. -/
theorem C13_counterexample :
    (Sys.init (fun _ => 0)).allows fourAlarms = true ∧
    ((Sys.init (fun _ => 0)).run fourAlarms).reg.outstanding_alarms.length = 0 ∧
    ((Sys.init (fun _ => 0)).run fourAlarms).constructed.length = 4 ∧
    ((Sys.init (fun _ => 0)).run fourAlarms).destroyed.length = 0 ∧
    ((Sys.init (fun _ => 0)).run fourAlarms).destroyedOrFired.length = 3 ∧
    (((Sys.init (fun _ => 0)).run fourAlarms).reg.alarms 3).fired_ = false := by
  decide

/-- C13 (amended): after every run of constructions, destructions and scans,
the size of the live collection equals the number of alarms constructed minus
the number that were destroyed or erased by a scan on expiry (reported or
suppressed); the alarms destroyed or fired are among those, and the count of
the claim is right whenever no firing was suppressed. -/
theorem C13_live_set_accounting (counters : Nat → Int) (ops : List Op)
    (hal : (Sys.init counters).allows ops = true) :
    ((Sys.init counters).run ops).reg.outstanding_alarms.length +
        ((Sys.init counters).run ops).gone.length =
      ((Sys.init counters).run ops).constructed.length ∧
    ((Sys.init counters).run ops).destroyedOrFired.length ≤
      ((Sys.init counters).run ops).gone.length ∧
    ((∀ f ∈ ((Sys.init counters).run ops).firings, f.reported = true) →
      ((Sys.init counters).run ops).reg.outstanding_alarms.length +
          ((Sys.init counters).run ops).destroyedOrFired.length =
        ((Sys.init counters).run ops).constructed.length) := by
  obtain ⟨hinv, hacc⟩ := Sys.Accounted.after_run counters ops hal
  generalize (Sys.init counters).run ops = s at hinv hacc
  have hperm : s.reg.outstanding_alarms.Perm
      (s.constructed.filter (fun a =>
        !(decide (a ∈ s.destroyed) || decide (a ∈ s.firings.map Firing.alarm)))) := by
    rw [List.perm_ext_iff_of_nodup hinv.nodup (List.Nodup.filter _ hacc.constructed_nodup)]
    intro a
    rw [List.mem_filter]
    simp only [Bool.not_eq_true', Bool.or_eq_false_iff, decide_eq_false_iff_not]
    constructor
    · intro ha
      exact ⟨hinv.live_constructed a ha, hinv.live_not_destroyed a ha, hinv.live_not_fired a ha⟩
    · rintro ⟨h1, h2, h3⟩
      exact hacc.rest_live a h1 h2 h3
  have hlen : s.reg.outstanding_alarms.length + s.gone.length = s.constructed.length := by
    rw [hperm.length_eq]
    exact length_filter_add_not s.constructed _
  refine ⟨hlen, ?_, ?_⟩
  · unfold Sys.destroyedOrFired Sys.gone
    apply List.Sublist.length_le
    apply List.monotone_filter_right
    intro a ha
    simp only [Bool.or_eq_true, decide_eq_true_eq] at ha ⊢
    rcases ha with h | h
    · exact Or.inl h
    · obtain ⟨f, hf1, hf2, _⟩ := hinv.fired_has_firing a h
      exact Or.inr (hf2 ▸ List.mem_map_of_mem _ hf1)
  · intro hall
    have heq : s.destroyedOrFired = s.gone := by
      unfold Sys.destroyedOrFired Sys.gone
      apply List.filter_congr
      intro a _
      by_cases hd : a ∈ s.destroyed
      · simp [hd]
      · simp only [hd, decide_False, Bool.false_or]
        by_cases hf : a ∈ s.firings.map Firing.alarm
        · obtain ⟨f, hf1, hf2⟩ := List.mem_map.1 hf
          have := hacc.reported_fired f hf1 (hall f hf1)
          rw [hf2] at this
          simp [this, hf]
        · have hnf : (s.reg.alarms a).fired_ = false := by
            by_contra hc
            rw [Bool.not_eq_false] at hc
            obtain ⟨f, hf1, hf2, _⟩ := hinv.fired_has_firing a hc
            exact hf (hf2 ▸ List.mem_map_of_mem _ hf1)
          simp [hnf, hf]
    rw [heq]
    exact hlen

/-- C13 witness: the run of four alarms, where the live collection is empty
and all four constructed alarms were erased by the scans. -/
theorem C13_live_set_accounting_witness :
    ((Sys.init (fun _ => 0)).run fourAlarms).reg.outstanding_alarms.length +
        ((Sys.init (fun _ => 0)).run fourAlarms).gone.length =
      ((Sys.init (fun _ => 0)).run fourAlarms).constructed.length ∧
    ((Sys.init (fun _ => 0)).run fourAlarms).gone.length = 4 :=
  ⟨(C13_live_set_accounting (fun _ => 0) fourAlarms (by decide)).1, by decide⟩

/-! ## C12 -/

theorem StrCat_four (a b c d : String) : StrCat [a, b, c, d] = a ++ b ++ c ++ d := by
  simp [StrCat, String.join]

theorem StrCat_two (a b : String) : StrCat [a, b] = a ++ b := by
  simp [StrCat, String.join]

/-- C12: the alarm `SlowCompilationAlarm(msg)` builds has the message
`separator ++ body ++ suffix ++ separator`, with the separator
`"\n********************************"`, the warning text of the build mode as
body, and as suffix nothing for an empty `msg` and a newline followed by `msg`
otherwise; it is bound to the one counter of the factory, whatever `msg` and
the build mode are; its deadline is `now` plus two minutes (`NDEBUG`) or ten
seconds; and it is registered like any alarm. -/
theorem C12_slow_compilation_message (NDEBUG : Bool) (msg : String) (this : Nat) (now : Int)
    (w : Registry) :
    ((SlowCompilationAlarm NDEBUG msg this now w).alarms this).msg =
      "\n********************************" ++ warningBody NDEBUG ++
        (if msg = "" then "" else "\n" ++ msg) ++ "\n********************************" ∧
    ((SlowCompilationAlarm NDEBUG "" this now w).alarms this).msg =
      "\n********************************" ++ warningBody NDEBUG ++
        "\n********************************" ∧
    ((SlowCompilationAlarm NDEBUG msg this now w).alarms this).counter_ =
      some SlowCompilationAlarm_counter ∧
    ((SlowCompilationAlarm NDEBUG msg this now w).alarms this).fired_ = false ∧
    ((SlowCompilationAlarm NDEBUG msg this now w).alarms this).deadline_ =
      now + (if NDEBUG then Minutes 2 else Seconds 10) ∧
    (SlowCompilationAlarm NDEBUG msg this now w).outstanding_alarms =
      w.outstanding_alarms ++ [this] ∧
    (SlowCompilationAlarm NDEBUG msg this now w).counters = w.counters := by
  have hmsg : ∀ m : String,
      ((SlowCompilationAlarm NDEBUG m this now w).alarms this).msg =
      "\n********************************" ++ warningBody NDEBUG ++
        (if m = "" then "" else "\n" ++ m) ++ "\n********************************" := by
    intro m
    have hsuf : (if (!m.isEmpty) = true then StrCat ["\n", m] else "") =
        (if m = "" then "" else "\n" ++ m) := by
      by_cases hm : m = ""
      · subst hm; rfl
      · have : m.isEmpty = false := by
          rw [Bool.eq_false_iff]
          intro h
          exact hm ((String.isEmpty_iff m).1 h)
        simp [this, hm, StrCat_two]
    cases NDEBUG <;>
      simp only [SlowCompilationAlarm, construct, ScheduleAlarm, SlowOperationAlarm.msg,
        Function.update_same, StrCat_four, hsuf, warningBody, if_true, if_false,
        Bool.false_eq_true]
  refine ⟨hmsg msg, ?_, ?_, ?_, ?_, ?_, ?_⟩
  · have := hmsg ""
    simpa using this
  · cases NDEBUG <;> simp [SlowCompilationAlarm, construct, ScheduleAlarm]
  · cases NDEBUG <;> simp [SlowCompilationAlarm, construct, ScheduleAlarm]
  · cases NDEBUG <;> simp [SlowCompilationAlarm, construct, ScheduleAlarm]
  · cases NDEBUG <;> simp [SlowCompilationAlarm, construct, ScheduleAlarm]
  · cases NDEBUG <;> simp [SlowCompilationAlarm, construct, ScheduleAlarm]

/-- The message of the optimized build for `msg = "op X"`, written out. -/
theorem SlowCompilationAlarm_sample_message :
    ((SlowCompilationAlarm true "op X" 9 0 sampleRegistry).alarms 9).msg =
    "\n********************************\nVery slow compile?  If you want to file a bug, run with envvar XLA_FLAGS=--xla_dump_to=/tmp/foo and attach the results.\nop X\n********************************" := by
  rfl

end xla

namespace mlir.mhlo

/-! ## C16 -/

theorem matchAndRewrite_ranked (NDEBUG : Bool) (op : ClampOp)
    (operandType maxType minType : RankedTensorType)
    (ho : op.operand.getType = TensorType.ranked operandType)
    (hmax : op.max.getType = TensorType.ranked maxType)
    (hmin : op.min.getType = TensorType.ranked minType)
    (hstatic : operandType.hasStaticShape = true)
    (hamax : maxType ≠ operandType → assertRankZero NDEBUG maxType = true)
    (hamin : minType ≠ operandType → assertRankZero NDEBUG minType = true) :
    matchAndRewrite NDEBUG op = RewriteOutcome.success
      ⟨op.resultType,
       if minType ≠ operandType then
         Value.BroadcastOp (TensorType.ranked operandType) op.min operandType.shape
       else op.min,
       op.operand,
       if maxType ≠ operandType then
         Value.BroadcastOp (TensorType.ranked operandType) op.max operandType.shape
       else op.max⟩ := by
  have h1 : ¬ (maxType ≠ operandType ∧ assertRankZero NDEBUG maxType = false) := by
    rintro ⟨h, h2⟩
    rw [hamax h] at h2
    exact absurd h2 (by decide)
  have h2 : ¬ (minType ≠ operandType ∧ assertRankZero NDEBUG minType = false) := by
    rintro ⟨h, h2⟩
    rw [hamin h] at h2
    exact absurd h2 (by decide)
  simp only [matchAndRewrite, ho, hmax, hmin, TensorType.dyn_cast, hstatic, Bool.not_true,
    Bool.false_eq_true, if_false, h1, h2]

theorem matchAndRewrite_failure_iff (NDEBUG : Bool) (op : ClampOp) :
    matchAndRewrite NDEBUG op = RewriteOutcome.failure ↔
      (op.operand.getType.dyn_cast = none ∨ op.max.getType.dyn_cast = none ∨
        op.min.getType.dyn_cast = none ∨
        ∃ operandType, op.operand.getType = TensorType.ranked operandType ∧
          operandType.hasStaticShape = false) := by
  unfold matchAndRewrite
  cases ho : op.operand.getType with
  | unranked e => simp [TensorType.dyn_cast]
  | ranked operandType =>
    cases hmax : op.max.getType with
    | unranked e => simp [TensorType.dyn_cast]
    | ranked maxType =>
      cases hmin : op.min.getType with
      | unranked e => simp [TensorType.dyn_cast]
      | ranked minType =>
        simp only [TensorType.dyn_cast, TensorType.ranked.injEq, exists_eq_left', false_or]
        by_cases hs : operandType.hasStaticShape = true
        · simp only [hs, Bool.not_true, Bool.false_eq_true, if_false]
          constructor
          · intro h
            split at h
            · exact absurd h (by simp)
            · split at h
              · exact absurd h (by simp)
              · exact absurd h (by simp)
          · intro h
            exact absurd h (by simp)
        · simp only [Bool.not_eq_true] at hs
          simp [hs]

theorem matchAndRewrite_assert (op : ClampOp)
    (operandType maxType minType : RankedTensorType)
    (ho : op.operand.getType = TensorType.ranked operandType)
    (hmax : op.max.getType = TensorType.ranked maxType)
    (hmin : op.min.getType = TensorType.ranked minType)
    (hstatic : operandType.hasStaticShape = true)
    (hbad : ¬ ((maxType = operandType ∨ maxType.getRank = 0) ∧
      (minType = operandType ∨ minType.getRank = 0))) :
    matchAndRewrite false op = RewriteOutcome.assertFailed := by
  simp only [matchAndRewrite, ho, hmax, hmin, TensorType.dyn_cast, hstatic, Bool.not_true,
    Bool.false_eq_true, if_false]
  by_cases h1 : maxType ≠ operandType ∧ assertRankZero false maxType = false
  · rw [if_pos h1]
  · rw [if_neg h1]
    have h2 : minType ≠ operandType ∧ assertRankZero false minType = false := by
      by_contra h2
      apply hbad
      constructor
      · by_cases hm : maxType = operandType
        · exact Or.inl hm
        · right
          by_contra hr
          exact h1 ⟨hm, by simp [assertRankZero, hr]⟩
      · by_cases hm : minType = operandType
        · exact Or.inl hm
        · right
          by_contra hr
          exact h2 ⟨hm, by simp [assertRankZero, hr]⟩
    rw [if_pos h2]

/-- C16, as stated, fails in a build that checks asserts: the types of the
operand, `min` and `max` of the mismatched clamp are ranked and the operand
shape is static, yet `matchAndRewrite` stops at `assert(minType.getRank() ==
0)` instead of succeeding; a build without asserts broadcasts the non-scalar
`min` all the same. -/
theorem C16_counterexample :
    mismatchedClamp.operand.getType = TensorType.ranked ⟨[4], 0⟩ ∧
    mismatchedClamp.max.getType = TensorType.ranked ⟨[4], 0⟩ ∧
    mismatchedClamp.min.getType = TensorType.ranked ⟨[2], 0⟩ ∧
    RankedTensorType.hasStaticShape ⟨[4], 0⟩ = true ∧
    matchAndRewrite false mismatchedClamp = RewriteOutcome.assertFailed ∧
    matchAndRewrite true mismatchedClamp = RewriteOutcome.success
      ⟨TensorType.ranked ⟨[4], 0⟩,
       Value.BroadcastOp (TensorType.ranked ⟨[4], 0⟩)
         (Value.defined 0 (TensorType.ranked ⟨[2], 0⟩)) [4],
       Value.defined 1 (TensorType.ranked ⟨[4], 0⟩),
       Value.defined 2 (TensorType.ranked ⟨[4], 0⟩)⟩ := by
  decide

/-- C16 (amended): on a `ClampOp` whose operand, `min` and `max` types are
ranked and whose operand shape is static, `matchAndRewrite` succeeds whenever
the build has no asserts or `min` and `max` each have the operand's type or
rank 0: the replacement keeps the result type and the operand, passes `min`
and `max` through when they have the operand's type and otherwise puts a
`BroadcastOp` of the operand's type with the operand's shape as broadcast
sizes in their place, so that both have the operand's type and the
replacement is legal.  In a build that checks asserts, an op with a `min` or
`max` of another type and of rank other than 0 stops at the assert.
`matchAndRewrite` returns failure exactly when one of the three types is
unranked or the operand shape is not static. -/
theorem C16_clamp_with_broadcast (NDEBUG : Bool) (op : ClampOp) :
    (∀ operandType maxType minType,
      op.operand.getType = TensorType.ranked operandType →
      op.max.getType = TensorType.ranked maxType →
      op.min.getType = TensorType.ranked minType →
      operandType.hasStaticShape = true →
      ((NDEBUG = true ∨ ((maxType = operandType ∨ maxType.getRank = 0) ∧
          (minType = operandType ∨ minType.getRank = 0))) →
        ∃ replacement, matchAndRewrite NDEBUG op = RewriteOutcome.success replacement ∧
          replacement.resultType = op.resultType ∧
          replacement.operand = op.operand ∧
          replacement.min = (if minType = operandType then op.min else
            Value.BroadcastOp (TensorType.ranked operandType) op.min operandType.shape) ∧
          replacement.max = (if maxType = operandType then op.max else
            Value.BroadcastOp (TensorType.ranked operandType) op.max operandType.shape) ∧
          replacement.min.getType = op.operand.getType ∧
          replacement.max.getType = op.operand.getType ∧
          isLegalClampOp replacement = true) ∧
      ((NDEBUG = false ∧ ¬ ((maxType = operandType ∨ maxType.getRank = 0) ∧
          (minType = operandType ∨ minType.getRank = 0))) →
        matchAndRewrite NDEBUG op = RewriteOutcome.assertFailed)) ∧
    (matchAndRewrite NDEBUG op = RewriteOutcome.failure ↔
      (op.operand.getType.dyn_cast = none ∨ op.max.getType.dyn_cast = none ∨
        op.min.getType.dyn_cast = none ∨
        ∃ operandType, op.operand.getType = TensorType.ranked operandType ∧
          operandType.hasStaticShape = false)) := by
  refine ⟨?_, matchAndRewrite_failure_iff NDEBUG op⟩
  intro operandType maxType minType ho hmax hmin hstatic
  refine ⟨?_, ?_⟩
  · intro hok
    have hassert : ∀ t : RankedTensorType,
        (NDEBUG = true ∨ (t = operandType ∨ t.getRank = 0)) →
        t ≠ operandType → assertRankZero NDEBUG t = true := by
      intro t ht hne
      rcases ht with h | h | h
      · simp [assertRankZero, h]
      · exact absurd h hne
      · simp [assertRankZero, h]
    have hamax := hassert maxType (hok.imp id (fun h => h.1))
    have hamin := hassert minType (hok.imp id (fun h => h.2))
    refine ⟨_, matchAndRewrite_ranked NDEBUG op operandType maxType minType ho hmax hmin
      hstatic hamax hamin, rfl, rfl, ?_, ?_, ?_, ?_, ?_⟩
    · by_cases h : minType = operandType <;> simp [h]
    · by_cases h : maxType = operandType <;> simp [h]
    · by_cases h : minType = operandType
      · simp only [ne_eq, h, not_true_eq_false, if_false]
        rw [hmin, ho, h]
      · simp only [ne_eq, h, not_false_eq_true, if_true]
        rw [ho]; rfl
    · by_cases h : maxType = operandType
      · simp only [ne_eq, h, not_true_eq_false, if_false]
        rw [hmax, ho, h]
      · simp only [ne_eq, h, not_false_eq_true, if_true]
        rw [ho]; rfl
    · simp only [isLegalClampOp, Bool.and_eq_true, beq_iff_eq]
      constructor
      · by_cases h : maxType = operandType
        · simp only [ne_eq, h, not_true_eq_false, if_false]
          rw [hmax, ho, h]
        · simp only [ne_eq, h, not_false_eq_true, if_true]
          rw [ho]; rfl
      · by_cases h : minType = operandType
        · simp only [ne_eq, h, not_true_eq_false, if_false]
          rw [hmin, ho, h]
        · simp only [ne_eq, h, not_false_eq_true, if_true]
          rw [ho]; rfl
  · rintro ⟨hN, hbad⟩
    rw [hN]
    exact matchAndRewrite_assert op operandType maxType minType ho hmax hmin hstatic hbad

/-- C16 witness: with asserts compiled in, the sample clamp has a scalar
`min` and a `max` of the operand's type; the rewrite succeeds, the `min` is
replaced by a broadcast to `4 x 2`, and the replacement is legal. -/
theorem C16_clamp_with_broadcast_witness :
    matchAndRewrite false sampleClamp = RewriteOutcome.success
      ⟨TensorType.ranked ⟨[4, 2], 0⟩,
       Value.BroadcastOp (TensorType.ranked ⟨[4, 2], 0⟩)
         (Value.defined 0 (TensorType.ranked ⟨[], 0⟩)) [4, 2],
       Value.defined 1 (TensorType.ranked ⟨[4, 2], 0⟩),
       Value.defined 2 (TensorType.ranked ⟨[4, 2], 0⟩)⟩ ∧
    ∃ replacement, matchAndRewrite false sampleClamp = RewriteOutcome.success replacement ∧
      replacement.min.getType = sampleClamp.operand.getType ∧
      replacement.max.getType = sampleClamp.operand.getType ∧
      isLegalClampOp replacement = true := by
  obtain ⟨r, hr, _, _, _, _, hmin, hmax, hlegal⟩ :=
    ((C16_clamp_with_broadcast false sampleClamp).1 ⟨[4, 2], 0⟩ ⟨[4, 2], 0⟩ ⟨[], 0⟩
      rfl rfl rfl (by decide)).1 (Or.inr (by decide))
  exact ⟨by decide, r, hr, hmin, hmax, hlegal⟩

end mlir.mhlo
